import Mathlib

/-!
Agent service: job queue and worker.

A shallow embedding of `agent-service/src/queue.js` (class `QueueManager`) and
`agent-service/src/worker.js` (class `Worker`), followed by theorems about the
embedded program.

Conventions of the embedding

* An `async` method becomes a function from the state before the call (and the
  readings of the environment the method takes during the call) to the outcome
  of the call together with the state after it.  A rejected promise / thrown
  `Error` is `Except.error message`; the state is returned in both cases, because
  a method that throws half-way keeps the writes it already made.
* `new Date().toISOString()` is a reading of the clock; the reading is an
  argument (`now`) of the method that takes it.
* `console.log / warn / error` have no effect on the state and are dropped.
* The Redis server is a key-value store with three kinds of values (strings,
  hashes, lists).  Every command sent through the client may reject; which of
  the upcoming commands reject is part of the client state (`Client.faults`).
-/

namespace AgentService

/-! ## JavaScript and library models -/

/-- The result of `new Date().toISOString()`. -/
abbrev Timestamp := String

/-- Association list lookup: `Map.prototype.get`, and field or key lookup in the
Redis model.  The first entry with the key wins (keys are kept unique by `assocSet`). -/
def assocGet {β : Type} (m : List (String × β)) (k : String) : Option β :=
  match m with
  | [] => none
  | (k', v) :: rest => if k' = k then some v else assocGet rest k

/-- Association list update: `Map.prototype.set`.  An existing key keeps its
position and gets the new value, a new key is appended. -/
def assocSet {β : Type} (m : List (String × β)) (k : String) (v : β) : List (String × β) :=
  match m with
  | [] => [(k, v)]
  | (k', v') :: rest => if k' = k then (k, v) :: rest else (k', v') :: assocSet rest k v

/-- Removal of a key (Redis deletes a list key when its last element is popped). -/
def assocErase {β : Type} (m : List (String × β)) (k : String) : List (String × β) :=
  match m with
  | [] => []
  | (k', v') :: rest => if k' = k then assocErase rest k else (k', v') :: assocErase rest k

/-- JavaScript truthiness of a value that is a string or `undefined`/`null`:
only `undefined`/`null` and the empty string are falsy. -/
def truthy (v : Option String) : Bool :=
  match v with
  | none => false
  | some s => decide (s ≠ "")

/-- ECMAScript `WhiteSpace` and `LineTerminator` code points, the characters
removed by `String.prototype.trim`. -/
def jsIsWhitespace (c : Char) : Bool :=
  let n := c.toNat
  n = 0x09 || n = 0x0A || n = 0x0B || n = 0x0C || n = 0x0D || n = 0x20 || n = 0xA0 ||
  n = 0x1680 || (0x2000 ≤ n && n ≤ 0x200A) || n = 0x2028 || n = 0x2029 || n = 0x202F ||
  n = 0x205F || n = 0x3000 || n = 0xFEFF

/-- The method `String.prototype.trim`. -/
def jsTrim (s : String) : String :=
  String.mk ((s.toList.dropWhile jsIsWhitespace).reverse.dropWhile jsIsWhitespace).reverse

/-- One hexadecimal digit, lower case, as `JSON.stringify` writes it. -/
def hexDigit (n : Nat) : Char :=
  if n < 10 then Char.ofNat (48 + n) else Char.ofNat (87 + n)

/-- ECMAScript `QuoteJSONString` on one code point (a Lean string holds no lone
surrogate, so that case does not arise). -/
def jsonQuoteChar (c : Char) : List Char :=
  let bs := Char.ofNat 92
  let n := c.toNat
  if n = 0x08 then [bs, 'b']
  else if n = 0x09 then [bs, 't']
  else if n = 0x0A then [bs, 'n']
  else if n = 0x0C then [bs, 'f']
  else if n = 0x0D then [bs, 'r']
  else if n = 0x22 then [bs, Char.ofNat 34]
  else if n = 0x5C then [bs, bs]
  else if n < 0x20 then [bs, 'u', '0', '0', hexDigit (n / 16), hexDigit (n % 16)]
  else [c]

/-- ECMAScript `QuoteJSONString`. -/
def jsonQuote (s : String) : String :=
  String.mk ([Char.ofNat 34] ++ (s.toList.map jsonQuoteChar).flatten ++ [Char.ofNat 34])

/-- The call `JSON.stringify(logs)` on an array of strings. -/
def jsonStringify (logs : List String) : String :=
  "[" ++ String.intercalate "," (logs.map jsonQuote) ++ "]"

/-- Library behaviour that queue.js relies on and that is not fixed by the
repository: `JSON.parse` on the text of a hash field (it throws on text that is
not JSON), and how `client.hSet` encodes the array-valued field `logs: []` of a
new job (the client may also reject such an argument). -/
structure Lib where
  /-- The call `JSON.parse(text)`, as far as it yields an array of strings. -/
  parse : String → Except String (List String)
  /-- The encoding `client.hSet` gives to an array-valued field. -/
  encodeArray : List String → Except String String

/-! ## The Redis server and its client -/

/-- The data of the Redis server.  The program uses the keys `job:<id>:data`
(hashes), `job:<id>:status` (strings) and `jobs:queue` (a list); a key of one
shape is never a key of another, so the three kinds are kept apart. -/
structure Redis where
  strings : List (String × String)
  hashes : List (String × List (String × String))
  lists : List (String × List String)
deriving DecidableEq, Repr

/-- The command `HSET key field value [field value ...]`. -/
def Redis.hSet (db : Redis) (key : String) (fields : List (String × String)) : Redis :=
  let old := (assocGet db.hashes key).getD []
  { db with hashes := assocSet db.hashes key (fields.foldl (fun h fv => assocSet h fv.1 fv.2) old) }

/-- The command `SET key value`. -/
def Redis.set (db : Redis) (key value : String) : Redis :=
  { db with strings := assocSet db.strings key value }

/-- The command `LPUSH key element`: the element becomes the head of the list. -/
def Redis.lPush (db : Redis) (key element : String) : Redis :=
  { db with lists := assocSet db.lists key (element :: (assocGet db.lists key).getD []) }

/-- The command `BRPOP key timeout`: the tail element is removed and returned;
on an empty or missing list the call times out and yields `null`. -/
def Redis.brPop (db : Redis) (key : String) : Option String × Redis :=
  match assocGet db.lists key with
  | none => (none, db)
  | some l =>
    match l.getLast? with
    | none => (none, db)
    | some x =>
      let lists :=
        if l.dropLast = [] then assocErase db.lists key else assocSet db.lists key l.dropLast
      (some x, { db with lists := lists })

/-- The command `HGETALL key`: every field of the hash, none for a missing key. -/
def Redis.hGetAll (db : Redis) (key : String) : List (String × String) :=
  (assocGet db.hashes key).getD []

/-- The client object made by `createClient`. -/
structure Client where
  /-- The property `client.isReady`. -/
  isReady : Bool
  /-- The server the client talks to. -/
  db : Redis
  /-- Outcome of the upcoming commands, in order: `some msg` is a command that
  rejects with `Error(msg)` and leaves the server untouched, `none` is a command
  that is carried out.  Commands beyond the list are carried out. -/
  faults : List (Option String)
deriving DecidableEq, Repr

/-- One command sent through the client. -/
def Client.command {α : Type} (c : Client) (run : Redis → α × Redis) : Except String α × Client :=
  match c.faults with
  | some msg :: rest => (.error msg, { c with faults := rest })
  | none :: rest => (.ok (run c.db).1, { c with db := (run c.db).2, faults := rest })
  | [] => (.ok (run c.db).1, { c with db := (run c.db).2 })

/-! ## queue.js: `QueueManager` -/

/-- A job record as `enqueueJob` builds it and `updateJobStatus` mutates it;
`startedAt` and `completedAt` are absent until they are set. -/
structure Job where
  jobId : String
  command : String
  status : String
  createdAt : Timestamp
  logs : List String
  startedAt : Option Timestamp
  completedAt : Option Timestamp
deriving DecidableEq, Repr

/-- The object the Redis branches of `dequeueJob` and `getJobStatus` return: the
fields of the hash as `hGetAll` gave them, with `logs` replaced by the parsed
array. -/
structure HashJob where
  /-- The field `jobId`, which both branches check to be present and non-empty
  before they hand the object out. -/
  jobId : String
  /-- The fields of the hash other than `logs` (all values are strings). -/
  fields : List (String × String)
  /-- The parsed field `logs`. -/
  logs : List String
deriving DecidableEq, Repr

/-- What `dequeueJob` and `getJobStatus` hand out in the two modes. -/
inductive JobView where
  | mem (job : Job)
  | redis (job : HashJob)
deriving DecidableEq, Repr

/-- The property `job.jobId` of a handed-out job. -/
def JobView.jobId : JobView → String
  | .mem j => j.jobId
  | .redis h => h.jobId

/-- The property `job.command` of a handed-out job. -/
def JobView.command : JobView → Option String
  | .mem j => some j.command
  | .redis h => assocGet h.fields "command"

/-- The fields of a `QueueManager` instance. -/
structure QueueManager where
  redisUrl : String
  /-- The field `client`: `null` until `connect()` creates the client. -/
  client : Option Client
  isConnected : Bool
  memoryMode : Bool
  /-- The pending FIFO (an array of job ids). -/
  jobQueue : List String
  /-- The record table (a `Map` from job id to record). -/
  jobData : List (String × Job)
deriving DecidableEq, Repr

/-- The constructor. -/
def QueueManager.new (redisUrl : String) : QueueManager :=
  { redisUrl := redisUrl, client := none, isConnected := false,
    memoryMode := false, jobQueue := [], jobData := [] }

/-- The method `isHealthy()`. -/
def QueueManager.isHealthy (q : QueueManager) : Bool :=
  q.memoryMode ||
    (q.isConnected &&
      (match q.client with
       | some c => c.isReady
       | none => false))

/-- The method `getMode()`. -/
def QueueManager.getMode (q : QueueManager) : String :=
  if q.memoryMode then "memory" else "redis"

/-- The message of the `TypeError` raised by a method call on `this.client`
when it is `null`. -/
def nullClientError : String := "Cannot read properties of null"

/-- A command sent through `this.client`. -/
def QueueManager.send {α : Type} (q : QueueManager) (run : Redis → α × Redis) :
    Except String α × QueueManager :=
  match q.client with
  | none => (.error nullClientError, q)
  | some c => ((c.command run).1, { q with client := some (c.command run).2 })

/-- The key `job:<jobId>:data`. -/
def dataKey (jobId : String) : String := "job:" ++ jobId ++ ":data"

/-- The key `job:<jobId>:status`. -/
def statusKey (jobId : String) : String := "job:" ++ jobId ++ ":status"

/-- The key of the pending list. -/
def queueKey : String := "jobs:queue"

/-- The error thrown by every operation on an unhealthy store. -/
def notAvailable : String := "Queue not available"

/-- The method `enqueueJob(jobId, command)`. -/
def QueueManager.enqueueJob (L : Lib) (q : QueueManager) (jobId command : String)
    (now : Timestamp) : Except String Job × QueueManager :=
  if !q.isHealthy then (.error notAvailable, q)
  else
    let job : Job :=
      { jobId := jobId, command := command, status := "queued", createdAt := now,
        logs := [], startedAt := none, completedAt := none }
    if q.memoryMode then
      (.ok job, { q with jobData := assocSet q.jobData jobId job,
                         jobQueue := q.jobQueue ++ [jobId] })
    else
      match L.encodeArray job.logs with
      | .error e => (.error e, q)
      | .ok logsField =>
        match q.send (fun db => ((), db.hSet (dataKey jobId)
            [("jobId", jobId), ("command", command), ("status", "queued"),
             ("createdAt", now), ("logs", logsField)])) with
        | (.error e, q1) => (.error e, q1)
        | (.ok _, q1) =>
          match q1.send (fun db => ((), db.set (statusKey jobId) "queued")) with
          | (.error e, q2) => (.error e, q2)
          | (.ok _, q2) =>
            match q2.send (fun db => ((), db.lPush queueKey jobId)) with
            | (.error e, q3) => (.error e, q3)
            | (.ok _, q3) => (.ok job, q3)

/-- The tail shared by the Redis branches of `dequeueJob` and `getJobStatus`:
the `jobId` check on the object from `hGetAll` and the parsing of `logs`. -/
def readHashJob (L : Lib) (h : List (String × String)) : Except String (Option JobView) :=
  if !truthy (assocGet h "jobId") then .ok none
  else
    let jobId := (assocGet h "jobId").getD ""
    if truthy (assocGet h "logs") then
      match L.parse ((assocGet h "logs").getD "") with
      | .error e => .error e
      | .ok logs => .ok (some (.redis { jobId := jobId, fields := assocErase h "logs", logs := logs }))
    else .ok (some (.redis { jobId := jobId, fields := assocErase h "logs", logs := [] }))

/-- The method `dequeueJob()`. -/
def QueueManager.dequeueJob (L : Lib) (q : QueueManager) :
    Except String (Option JobView) × QueueManager :=
  if !q.isHealthy then (.error notAvailable, q)
  else if q.memoryMode then
    match q.jobQueue with
    | [] => (.ok none, q)
    | jobId :: rest =>
      if !truthy (some jobId) then (.ok none, { q with jobQueue := rest })
      else
        match assocGet q.jobData jobId with
        | none => (.ok none, { q with jobQueue := rest })
        | some jobData => (.ok (some (.mem jobData)), { q with jobQueue := rest })
  else
    match q.send (fun db => db.brPop queueKey) with
    | (.error e, q1) => (.error e, q1)
    | (.ok none, q1) => (.ok none, q1)
    | (.ok (some jobId), q1) =>
      match q1.send (fun db => (db.hGetAll (dataKey jobId), db)) with
      | (.error e, q2) => (.error e, q2)
      | (.ok h, q2) => (readHashJob L h, q2)

/-- The method `updateJobStatus(jobId, status, logs)`. -/
def QueueManager.updateJobStatus (q : QueueManager) (jobId status : String)
    (logs : List String) (now : Timestamp) : Except String Unit × QueueManager :=
  if !q.isHealthy then (.error notAvailable, q)
  else if q.memoryMode then
    match assocGet q.jobData jobId with
    | some jobData =>
      let jobData1 := { jobData with status := status, logs := logs }
      let jobData2 :=
        if status = "running" then { jobData1 with startedAt := some now }
        else if status = "completed" ∨ status = "failed" then
          { jobData1 with completedAt := some now }
        else jobData1
      (.ok (), { q with jobData := assocSet q.jobData jobId jobData2 })
    | none => (.ok (), q)
  else
    match q.send (fun db => ((), db.set (statusKey jobId) status)) with
    | (.error e, q1) => (.error e, q1)
    | (.ok _, q1) =>
      let updates : List (String × String) :=
        [("status", status), ("logs", jsonStringify logs)] ++
          (if status = "running" then [("startedAt", now)]
           else if status = "completed" ∨ status = "failed" then [("completedAt", now)]
           else [])
      match q1.send (fun db => ((), db.hSet (dataKey jobId) updates)) with
      | (.error e, q2) => (.error e, q2)
      | (.ok _, q2) => (.ok (), q2)

/-- The method `getJobStatus(jobId)`. -/
def QueueManager.getJobStatus (L : Lib) (q : QueueManager) (jobId : String) :
    Except String (Option JobView) × QueueManager :=
  if !q.isHealthy then (.error notAvailable, q)
  else if q.memoryMode then
    match assocGet q.jobData jobId with
    | some jobData => (.ok (some (.mem jobData)), q)
    | none => (.ok none, q)
  else
    match q.send (fun db => (db.hGetAll (dataKey jobId), db)) with
    | (.error e, q1) => (.error e, q1)
    | (.ok h, q1) => (readHashJob L h, q1)

/-- The `ready` listener installed by `connect()`. -/
def QueueManager.onReady (q : QueueManager) : QueueManager :=
  { q with isConnected := true, memoryMode := false }

/-- The `error` listener installed by `connect()`. -/
def QueueManager.onError (q : QueueManager) : QueueManager :=
  { q with isConnected := false, memoryMode := if !q.memoryMode then true else q.memoryMode }

/-- The `end` listener installed by `connect()`. -/
def QueueManager.onEnd (q : QueueManager) : QueueManager :=
  { q with isConnected := false }

/-- The `catch` block of `connect()`. -/
def QueueManager.connectFailed (q : QueueManager) : QueueManager :=
  { q with isConnected := false, memoryMode := true }

/-- The `reconnectStrategy` passed to `createClient`: the delay in milliseconds
before the next attempt, or `none` (the value `false`) to stop reconnecting. -/
def QueueManager.reconnectStrategy (q : QueueManager) (retries : Nat) :
    Option Nat × QueueManager :=
  if retries > 5 then (none, { q with memoryMode := true })
  else (some (min (50 * 2 ^ retries) 3000), q)

/-- The method `close()`.  `client.quit()` is one more command; when it is
carried out the connection is closed, so the client is no longer ready and its
`end` listener runs; a rejection is caught and logged.  In memory mode the FIFO
and the record table are then cleared. -/
def QueueManager.close (q : QueueManager) : QueueManager :=
  let q1 :=
    match q.client with
    | some c =>
      match c.command (fun db => ((), db)) with
      | (.ok _, c1) => QueueManager.onEnd { q with client := some { c1 with isReady := false } }
      | (.error _, c1) => { q with client := some c1 }
    | none => q
  if q1.memoryMode then { q1 with jobQueue := [], jobData := [] } else q1

/-! ## worker.js: `Worker` -/

/-- The two output streams of the child process. -/
inductive Stream where
  | stdout
  | stderr
deriving DecidableEq, Repr

/-- The event that ends a child process: `close` with the exit code and the
signal as Node passes them (`null` is `none`), or `error`. -/
inductive Termination where
  | close (code : Option Int) (signal : Option String)
  | error (message : String)
deriving DecidableEq, Repr

/-- What a child process does from `exec` on: the `data` chunks of its two
streams in arrival order, then the first terminating event, which resolves the
promise of `executeCommand` (the `timeout` option of `exec` kills a child that
runs too long, which ends it with a `close` carrying the kill signal).  After an
`error` event Node may still deliver `data` chunks and a `close` event (after a
failed spawn it emits `close` with the negative error number as code); the
handlers of `executeCommand` stay installed.  `lateOutput` and `lateClose` are
the events of that kind that arrive while `processJob` awaits the Hub post; on
a memory-mode store none can arrive earlier, because nothing between the
resolution and the post waits for I/O.  Nothing follows a `close` event. -/
structure ChildRun where
  output : List (Stream × String)
  term : Termination
  /-- The `data` chunks that arrive after an `error` event. -/
  lateOutput : List (Stream × String) := []
  /-- The `close` event (code, signal) that arrives after an `error` event. -/
  lateClose : Option (Option Int × Option String) := none
deriving DecidableEq, Repr

/-- The value the promise of `executeCommand` resolves to. -/
structure ExecResult where
  success : Bool
  logs : List String
  code : Option Int
  signal : Option String
deriving DecidableEq, Repr

/-- The `data` handlers of `executeCommand`: a chunk that is non-empty after
`trim()` becomes one tagged log line. -/
def dataLine (chunk : Stream × String) : Option String :=
  let output := jsTrim chunk.2
  if truthy (some output) then
    match chunk.1 with
    | .stdout => some ("[stdout] " ++ output)
    | .stderr => some ("[stderr] " ++ output)
  else none

/-- The text a template literal gives to the exit code. -/
def codeText (code : Option Int) : String :=
  match code with
  | some n => toString n
  | none => "null"

/-- The method `executeCommand(command)`: the value its promise resolves to, as a
function of what the child does up to its first terminating event.  The array
`logs` of that value is the one the handlers keep pushing to afterwards; those
pushes are `lateLines`. -/
def executeCommand (run : ChildRun) : ExecResult :=
  let logs := run.output.filterMap dataLine
  match run.term with
  | .close code signal =>
    if truthy signal then
      { success := false,
        logs := logs ++ ["[system] Process terminated by signal: " ++ signal.getD ""],
        code := none, signal := signal }
    else
      { success := decide (code = some 0),
        logs := logs ++ ["[system] Process exited with code: " ++ codeText code],
        code := code, signal := none }
  | .error message =>
    { success := false, logs := logs ++ ["[system] Execution error: " ++ message],
      code := none, signal := none }

/-- The line the `close` handler of `executeCommand` pushes to `logs`. -/
def closeLine (code : Option Int) (signal : Option String) : String :=
  if truthy signal then "[system] Process terminated by signal: " ++ signal.getD ""
  else "[system] Process exited with code: " ++ codeText code

/-- The lines the handlers of `executeCommand` push to the array `logs` after
the promise was resolved: none after a `close` event; after an `error` event the
lines of the late `data` chunks and the line of the late `close` event (its
second `resolve` has no effect). -/
def lateLines (run : ChildRun) : List String :=
  match run.term with
  | .close _ _ => []
  | .error _ =>
    run.lateOutput.filterMap dataLine ++
      (match run.lateClose with
       | some (code, signal) => [closeLine code signal]
       | none => [])

/-- The body of the POST that `sendHubUpdate` sends. -/
structure HubPayload where
  jobId : String
  status : String
  logs : List String
  completedAt : Timestamp
deriving DecidableEq, Repr

/-- What `axios.post` does: it resolves with a response, or it rejects. -/
inductive HubReply where
  | response (status : Nat)
  | failure (code : Option String) (message : String)
deriving DecidableEq, Repr

/-- The calls a worker makes to its collaborators, in the order it makes them. -/
inductive Effect where
  /-- A call of `queueManager.updateJobStatus` and whether it returned (`true`)
  or threw (`false`). -/
  | update (jobId status : String) (logs : List String) (returned : Bool)
  /-- A call of `axios.post` with this body. -/
  | hubPost (payload : HubPayload)
deriving DecidableEq, Repr

/-- The state a worker acts on: its queue manager, and the calls made so far. -/
structure World where
  queue : QueueManager
  trace : List Effect
deriving DecidableEq, Repr

/-- An `async` method of the worker. -/
abbrev Act (α : Type) := World → Except String α × World

/-- Sequencing with `await`: a rejection skips the rest. -/
def Act.andThen {α β : Type} (a : Act α) (f : α → Act β) : Act β := fun w =>
  match a w with
  | (.error e, w1) => (.error e, w1)
  | (.ok x, w1) => f x w1

/-- The statement `try { body } catch (error) { handler(error.message) }`. -/
def Act.tryCatch {α : Type} (body : Act α) (handler : String → Act α) : Act α := fun w =>
  match body w with
  | (.error e, w1) => handler e w1
  | (.ok x, w1) => (.ok x, w1)

/-- The call `await this.queueManager.updateJobStatus(jobId, status, logs)`. -/
def callUpdate (jobId status : String) (logs : List String) (now : Timestamp) : Act Unit :=
  fun w =>
    match w.queue.updateJobStatus jobId status logs now with
    | (.error e, q1) =>
      (.error e, { queue := q1, trace := w.trace ++ [.update jobId status logs false] })
    | (.ok _, q1) =>
      (.ok (), { queue := q1, trace := w.trace ++ [.update jobId status logs true] })

/-- The method `sendHubUpdate(jobId, status, logs)`: the POST is made, and
whatever it answers the method returns normally. -/
def sendHubUpdate (jobId status : String) (logs : List String) (now : Timestamp)
    (reply : HubReply) : Act Unit := fun w =>
  let payload : HubPayload :=
    { jobId := jobId, status := status, logs := logs, completedAt := now }
  let w1 : World := { w with trace := w.trace ++ [.hubPost payload] }
  match reply with
  | .response _ => (.ok (), w1)
  | .failure _ _ => (.ok (), w1)

/-- What the environment does during one call of `processJob`. -/
structure JobEnv where
  /-- Clock reading in the `running` update. -/
  tRunning : Timestamp
  /-- What `exec` does with the command: it throws at once (as it does for a
  command that is not a string), or the child runs to its terminating event. -/
  child : Except String ChildRun
  /-- Clock reading in the terminal update. -/
  tTerminal : Timestamp
  /-- Clock reading in the update of the `catch` block. -/
  tFallback : Timestamp
  /-- Clock reading in `sendHubUpdate`. -/
  tHub : Timestamp
  /-- Answer of the Hub. -/
  hub : HubReply

/-- The call `await this.executeCommand(command)` inside `processJob`. -/
def callExecute (child : Except String ChildRun) : Act ExecResult := fun w =>
  match child with
  | .error e => (.error e, w)
  | .ok run => (.ok (executeCommand run), w)

/-- Lines pushed to the array that the memory branch of `updateJobStatus`
stored in the record of `jobId` (`jobData.logs = logs` keeps the array itself,
not a copy): the record's logs grow by them.  The Redis branch stored the text
`JSON.stringify(logs)`, which a later push does not reach. -/
def QueueManager.pushToStoredLogs (q : QueueManager) (jobId : String) (lines : List String) :
    QueueManager :=
  if lines = [] then q
  else if q.memoryMode then
    match assocGet q.jobData jobId with
    | some jobData =>
      { q with jobData := (assocSet q.jobData jobId
          { jobData with logs := jobData.logs ++ lines }) }
    | none => q
  else q

/-- The handlers of `executeCommand` that run while `processJob` awaits the Hub,
after the promise was resolved: they push `lateLines` to the array `logs` of the
call, which is the array the terminal update was given.  The body of the Hub
post was made before. -/
def lateHandlers (jobId : String) (child : Except String ChildRun) : Act Unit := fun w =>
  match child with
  | .ok run => (.ok (), { w with queue := w.queue.pushToStoredLogs jobId (lateLines run) })
  | .error _ => (.ok (), w)

/-- The `try` block of `processJob`. -/
def processJobTry (env : JobEnv) (jobId : String) : Act Unit :=
  Act.andThen (callUpdate jobId "running" [] env.tRunning) fun _ =>
  Act.andThen (callExecute env.child) fun result =>
  Act.andThen
    (if result.success then callUpdate jobId "completed" result.logs env.tTerminal
     else callUpdate jobId "failed" result.logs env.tTerminal) fun _ =>
  Act.andThen
    (sendHubUpdate jobId (if result.success then "completed" else "failed") result.logs
      env.tHub env.hub) fun _ =>
  lateHandlers jobId env.child

/-- The `catch (error)` block of `processJob`, with its own `try`/`catch`
around the update and the Hub post; `message` is `error.message`. -/
def processJobCatch (env : JobEnv) (jobId : String) (message : String) : Act Unit :=
  Act.tryCatch
    (Act.andThen (callUpdate jobId "failed" ["Error: " ++ message] env.tFallback) fun _ =>
     sendHubUpdate jobId "failed" ["Error: " ++ message] env.tHub env.hub)
    (fun _ => fun w => (.ok (), w))

/-- The method `processJob(job)`. -/
def processJob (env : JobEnv) (job : JobView) : Act Unit :=
  Act.tryCatch (processJobTry env job.jobId) (processJobCatch env job.jobId)

/-- One turn of the loop of `pollForJobs` (the sleeps are dropped): an unhealthy
store is skipped, a dequeued job is processed, an error is caught and logged. -/
def workerCycle (L : Lib) (env : JobEnv) (w : World) : World :=
  if !w.queue.isHealthy then w
  else
    match w.queue.dequeueJob L with
    | (.error _, q1) => { w with queue := q1 }
    | (.ok none, q1) => { w with queue := q1 }
    | (.ok (some job), q1) => (processJob env job { w with queue := q1 }).2

/-! ## A concrete library and concrete stores for closed examples -/

/-- A library for closed examples: the client rejects an array-valued hash
field (as node-redis 4 does) and `JSON.parse` knows the text of the empty array
only.  The memory branches of the store call neither. -/
def sampleLib : Lib :=
  { parse := fun text => if text = "[]" then .ok [] else .error "Unexpected token",
    encodeArray := fun _ => .error "Invalid argument type" }

/-- A store that has fallen back to memory mode and holds nothing. -/
def emptyMemoryStore : QueueManager :=
  { redisUrl := "redis://localhost:6379", client := none, isConnected := false,
    memoryMode := true, jobQueue := [], jobData := [] }

/-- A memory-mode store in which job `j1` already ran to completion. -/
def usedMemoryStore : QueueManager :=
  { emptyMemoryStore with
    jobData := [("j1", { jobId := "j1", command := "ls", status := "completed",
                         createdAt := "2024-01-01T00:00:00.000Z",
                         logs := ["[system] Process exited with code: 0"],
                         startedAt := some "2024-01-01T00:00:01.000Z",
                         completedAt := some "2024-01-01T00:00:02.000Z" })] }

/-- A healthy store in Redis mode whose server holds nothing. -/
def emptyRedisStore : QueueManager :=
  { redisUrl := "redis://localhost:6379",
    client := some { isReady := true, db := { strings := [], hashes := [], lists := [] },
                     faults := [] },
    isConnected := true, memoryMode := false, jobQueue := [], jobData := [] }

/-- The record `enqueueJob` builds for a job given as (id, command, clock reading). -/
def queuedJob (j : String × String × Timestamp) : Job :=
  { jobId := j.1, command := j.2.1, status := "queued", createdAt := j.2.2,
    logs := [], startedAt := none, completedAt := none }

/-- The calls `enqueueJob(id, command)` for the jobs of a list, in order. -/
def enqueueAll (L : Lib) (q : QueueManager) (jobs : List (String × String × Timestamp)) :
    QueueManager :=
  jobs.foldl (fun s j => (s.enqueueJob L j.1 j.2.1 j.2.2).2) q

/-- The results of `n` calls of `dequeueJob()` in a row, and the store after them. -/
def dequeueN (L : Lib) (q : QueueManager) :
    Nat → List (Except String (Option JobView)) × QueueManager
  | 0 => ([], q)
  | n + 1 =>
    ((q.dequeueJob L).1 :: (dequeueN L (q.dequeueJob L).2 n).1,
     (dequeueN L (q.dequeueJob L).2 n).2)

/-- The status a reader finds for a job id in the mode the store is in: the
field `status` of its record in the table, or of its hash on the server. -/
def QueueManager.recordStatus (q : QueueManager) (jobId : String) : Option String :=
  if q.memoryMode then (assocGet q.jobData jobId).map (fun r => r.status)
  else
    match q.client with
    | none => none
    | some c => assocGet (c.db.hGetAll (dataKey jobId)) "status"

/-- The bodies of the Hub posts in a list of calls. -/
def hubPosts (t : List Effect) : List HubPayload :=
  t.filterMap (fun e =>
    match e with
    | .hubPost p => some p
    | .update _ _ _ _ => none)

/-- The states reached from a memory-mode store that holds nothing by calls of
`enqueueJob` and turns of the worker loop. -/
inductive Reachable (L : Lib) : World → Prop where
  | init (q : QueueManager) (hmem : q.memoryMode = true) (hq : q.jobQueue = [])
      (hd : q.jobData = []) : Reachable L { queue := q, trace := [] }
  | enqueue (w : World) (jobId command : String) (now : Timestamp) (h : Reachable L w) :
      Reachable L { w with queue := (w.queue.enqueueJob L jobId command now).2 }
  | cycle (w : World) (env : JobEnv) (h : Reachable L w) : Reachable L (workerCycle L env w)

/-- The states reached in the same way when no id is enqueued while it is still
in the pending FIFO. -/
inductive ReachableFresh (L : Lib) : World → Prop where
  | init (q : QueueManager) (hmem : q.memoryMode = true) (hq : q.jobQueue = [])
      (hd : q.jobData = []) : ReachableFresh L { queue := q, trace := [] }
  | enqueue (w : World) (jobId command : String) (now : Timestamp)
      (h : ReachableFresh L w) (hfresh : jobId ∉ w.queue.jobQueue) :
      ReachableFresh L { w with queue := (w.queue.enqueueJob L jobId command now).2 }
  | cycle (w : World) (env : JobEnv) (h : ReachableFresh L w) :
      ReachableFresh L (workerCycle L env w)

/-- An environment in which the command prints one line and exits with code 0
and the Hub refuses the connection. -/
def sampleEnv : JobEnv :=
  { tRunning := "2024-01-01T00:00:01.000Z",
    child := .ok { output := [(.stdout, "hi\n")], term := .close (some 0) none },
    tTerminal := "2024-01-01T00:00:02.000Z",
    tFallback := "2024-01-01T00:00:03.000Z",
    tHub := "2024-01-01T00:00:04.000Z",
    hub := .failure (some "ECONNREFUSED") "connect ECONNREFUSED" }

/-- The world after `enqueueJob("a", "echo hi")` twice and one turn of the
worker loop: the record of `a` is completed and `a` is still pending once. -/
def doubleEnqueueWorld : World :=
  workerCycle sampleLib sampleEnv
    { queue := (((emptyMemoryStore.enqueueJob sampleLib "a" "echo hi"
                    "2024-01-01T00:00:00.000Z").2).enqueueJob sampleLib "a" "echo hi"
                    "2024-01-01T00:00:00.500Z").2,
      trace := [] }

/-- A healthy store in Redis mode whose server holds the queued job `j1` and
answers the third and the fourth command from now with an error reply (it has
become a read-only replica), which rejects the command and leaves the
connection up. -/
def flakyRedisStore : QueueManager :=
  { redisUrl := "redis://localhost:6379",
    client := some
      { isReady := true,
        db := { strings := [("job:j1:status", "queued")],
                hashes := [("job:j1:data",
                  [("jobId", "j1"), ("command", "echo hi"), ("status", "queued"),
                   ("createdAt", "2024-01-01T00:00:00.000Z"), ("logs", "")])],
                lists := [] },
        faults := [none, none, some "READONLY You can not write against a read only replica.",
                   some "READONLY You can not write against a read only replica."] },
    isConnected := true, memoryMode := false, jobQueue := [], jobData := [] }

/-- The job `j1` as the Redis branch of `dequeueJob` hands it out. -/
def flakyJob : JobView :=
  .redis { jobId := "j1",
           fields := [("jobId", "j1"), ("command", "echo hi"), ("status", "queued"),
                      ("createdAt", "2024-01-01T00:00:00.000Z")],
           logs := [] }

/-- The calls `processJob` has made when its `try` block throws `message`: the
`running` update threw, or it returned and `exec` threw, or both returned and
the terminal update threw. -/
def thrownPrefix (env : JobEnv) (jobId message : String) (pre : List Effect) : Prop :=
  pre = [.update jobId "running" [] false] ∨
  (pre = [.update jobId "running" [] true] ∧ env.child = .error message) ∨
  (∃ run, env.child = .ok run ∧
    pre = [.update jobId "running" [] true,
           .update jobId (if (executeCommand run).success then "completed" else "failed")
             (executeCommand run).logs false])

/-- The invariant of the states in `ReachableFresh`: the store is in memory
mode, no id is pending twice, every pending id has a record with status
`queued`, and every record is stored under its own `jobId`. -/
def PendingQueued (w : World) : Prop :=
  w.queue.memoryMode = true ∧ w.queue.jobQueue.Nodup ∧
  (∀ id ∈ w.queue.jobQueue, ∃ r, assocGet w.queue.jobData id = some r ∧ r.status = "queued") ∧
  (∀ id r, assocGet w.queue.jobData id = some r → r.jobId = id)

/-- The first statement of `connect()`: `this.client = createClient(...)`.  The
new client is not ready yet; `db` is the server it will talk to and `faults`
what that server does with the commands to come. -/
def QueueManager.createClient (q : QueueManager) (db : Redis) (faults : List (Option String)) :
    QueueManager :=
  { q with client := some { isReady := false, db := db, faults := faults } }

/-- The client library changes the property `isReady` of the client (if there
is one). -/
def QueueManager.setClientReady (q : QueueManager) (ready : Bool) : QueueManager :=
  { q with client := q.client.map (fun c => { c with isReady := ready }) }

/-- What can happen to one store instance: a call of one of its methods (with
the clock reading it takes), or one of the events `connect()` prepares for. -/
inductive StoreAction where
  | enqueueJob (jobId command : String) (now : Timestamp)
  | dequeueJob
  | updateJobStatus (jobId status : String) (logs : List String) (now : Timestamp)
  | getJobStatus (jobId : String)
  | close
  /-- The call `createClient` at the start of `connect()`. -/
  | createClient (db : Redis) (faults : List (Option String))
  /-- The library sets `client.isReady`. -/
  | clientReady (ready : Bool)
  /-- The event `ready`. -/
  | ready
  /-- The event `error`. -/
  | error
  /-- The event `end`. -/
  | ended
  /-- A call of `reconnectStrategy(retries)`; it is retry exhaustion when
  `retries > 5`. -/
  | reconnect (retries : Nat)
  /-- The promise of `client.connect()` rejects and the `catch` block of `connect()` runs. -/
  | connectFailed
deriving DecidableEq, Repr

/-- The store after one action (the value a method returns is dropped). -/
def QueueManager.step (L : Lib) (q : QueueManager) : StoreAction → QueueManager
  | .enqueueJob jobId command now => (q.enqueueJob L jobId command now).2
  | .dequeueJob => (q.dequeueJob L).2
  | .updateJobStatus jobId status logs now => (q.updateJobStatus jobId status logs now).2
  | .getJobStatus jobId => (q.getJobStatus L jobId).2
  | .close => q.close
  | .createClient db faults => q.createClient db faults
  | .clientReady ready => q.setClientReady ready
  | .ready => q.onReady
  | .error => q.onError
  | .ended => q.onEnd
  | .reconnect retries => (q.reconnectStrategy retries).2
  | .connectFailed => q.connectFailed

/-- The store after a sequence of actions. -/
def QueueManager.run (L : Lib) (q : QueueManager) (actions : List StoreAction) : QueueManager :=
  actions.foldl (fun s a => s.step L a) q

/-- Every id in the in-memory pending FIFO has a record in the in-memory table. -/
def PendingHaveRecords (q : QueueManager) : Prop :=
  ∀ id ∈ q.jobQueue, ∃ r, assocGet q.jobData id = some r

/-- A healthy store in Redis mode whose server holds nothing and rejects the
next command. -/
def rejectingRedisStore : QueueManager :=
  { redisUrl := "redis://localhost:6379",
    client := some { isReady := true, db := { strings := [], hashes := [], lists := [] },
                     faults := [some "LOADING Redis is loading the dataset in memory"] },
    isConnected := true, memoryMode := false, jobQueue := [], jobData := [] }

/-- A child that could not be spawned: Node emits `error` and, once the stdio
streams are closed, `close` with the negative error number as exit code. -/
def spawnFailureRun : ChildRun :=
  { output := [], term := .error "spawn /bin/sh EACCES",
    lateOutput := [], lateClose := some (some (-13), none) }

/-- An environment in which the command cannot be spawned and the Hub answers 200. -/
def spawnFailureEnv : JobEnv :=
  { tRunning := "2024-01-01T00:00:01.000Z",
    child := .ok spawnFailureRun,
    tTerminal := "2024-01-01T00:00:02.000Z",
    tFallback := "2024-01-01T00:00:03.000Z",
    tHub := "2024-01-01T00:00:04.000Z",
    hub := .response 200 }

/-- A memory-mode store from which the queued job `j1` was just dequeued. -/
def spawnFailureWorld : World :=
  { queue := { emptyMemoryStore with
      jobData := [("j1", queuedJob ("j1", "echo hi", "2024-01-01T00:00:00.000Z"))] },
    trace := [] }

/-! ## Lemmas on association lists -/

theorem assocGet_assocSet_same {β : Type} (m : List (String × β)) (k : String) (v : β) :
    assocGet (assocSet m k v) k = some v := by
  induction m with
  | nil => simp [assocSet, assocGet]
  | cons p rest ih =>
    obtain ⟨k', v'⟩ := p
    by_cases h : k' = k
    · simp [assocSet, assocGet, h]
    · simp [assocSet, assocGet, h, ih]

theorem assocGet_assocSet_other {β : Type} (m : List (String × β)) (k k2 : String) (v : β)
    (h : k2 ≠ k) : assocGet (assocSet m k v) k2 = assocGet m k2 := by
  induction m with
  | nil => simp [assocSet, assocGet, Ne.symm h]
  | cons p rest ih =>
    obtain ⟨k', v'⟩ := p
    by_cases hk : k' = k
    · subst hk
      simp [assocSet, assocGet, Ne.symm h]
    · by_cases hk2 : k' = k2
      · subst hk2
        simp [assocSet, assocGet, hk]
      · simp [assocSet, assocGet, hk, hk2, ih]

theorem assocSet_keys_of_mem {β : Type} (m : List (String × β)) (k : String) (v w : β)
    (h : assocGet m k = some w) : (assocSet m k v).map Prod.fst = m.map Prod.fst := by
  induction m with
  | nil => simp [assocGet] at h
  | cons p rest ih =>
    obtain ⟨k', v'⟩ := p
    by_cases hk : k' = k
    · simp [assocSet, hk]
    · simp [assocGet, hk] at h
      simp [assocSet, hk, ih h]

theorem isHealthy_of_memoryMode (q : QueueManager) (h : q.memoryMode = true) :
    q.isHealthy = true := by
  simp [QueueManager.isHealthy, h]

theorem assocSet_assocSet_same {β : Type} (m : List (String × β)) (k : String) (v v2 : β) :
    assocSet (assocSet m k v) k v2 = assocSet m k v2 := by
  induction m with
  | nil => simp [assocSet]
  | cons p rest ih =>
    obtain ⟨k', v'⟩ := p
    by_cases h : k' = k
    · simp [assocSet, h]
    · simp [assocSet, h, ih]

theorem updateJobStatus_memory_eq (q : QueueManager) (jobId status : String)
    (logs : List String) (now : Timestamp) (r : Job) (hmem : q.memoryMode = true)
    (hrec : assocGet q.jobData jobId = some r) :
    q.updateJobStatus jobId status logs now =
      (.ok (), { q with jobData := (assocSet q.jobData jobId
        { r with
          status := status, logs := logs,
          startedAt := if status = "running" then some now else r.startedAt,
          completedAt :=
            if status = "completed" ∨ status = "failed" then some now
            else r.completedAt }) }) := by
  have hh := isHealthy_of_memoryMode q hmem
  by_cases h1 : status = "running"
  · subst h1
    simp [QueueManager.updateJobStatus, hh, hmem, hrec]
  · by_cases h2 : status = "completed" ∨ status = "failed"
    · simp [QueueManager.updateJobStatus, hh, hmem, hrec, h1, h2]
    · simp [QueueManager.updateJobStatus, hh, hmem, hrec, h1, h2]

theorem updateJobStatus_memory_none (q : QueueManager) (jobId status : String)
    (logs : List String) (now : Timestamp) (hmem : q.memoryMode = true)
    (hrec : assocGet q.jobData jobId = none) :
    q.updateJobStatus jobId status logs now = (.ok (), q) := by
  simp [QueueManager.updateJobStatus, isHealthy_of_memoryMode q hmem, hmem, hrec]

theorem assocSet_self {β : Type} (m : List (String × β)) (k : String) (v : β)
    (h : assocGet m k = some v) : assocSet m k v = m := by
  induction m with
  | nil => simp [assocGet] at h
  | cons p rest ih =>
    obtain ⟨k', v'⟩ := p
    by_cases hk : k' = k
    · simp [assocGet, hk] at h
      simp [assocSet, hk, h]
    · simp [assocGet, hk] at h
      simp [assocSet, hk, ih h]

theorem pushToStoredLogs_memory (q : QueueManager) (jobId : String) (lines : List String)
    (r : Job) (hmem : q.memoryMode = true) (hrec : assocGet q.jobData jobId = some r) :
    q.pushToStoredLogs jobId lines =
      { q with jobData := (assocSet q.jobData jobId { r with logs := r.logs ++ lines }) } := by
  by_cases hl : lines = []
  · subst hl
    simp only [QueueManager.pushToStoredLogs, if_true, List.append_nil]
    rw [assocSet_self _ _ _ hrec]
  · simp [QueueManager.pushToStoredLogs, hl, hmem, hrec]

theorem processJob_memory_ran (env : JobEnv) (job : JobView) (w : World) (r : Job)
    (run : ChildRun) (hmem : w.queue.memoryMode = true)
    (hrec : assocGet w.queue.jobData job.jobId = some r) (hchild : env.child = .ok run) :
    processJob env job w =
      (.ok (),
       { queue := { w.queue with jobData := (assocSet w.queue.jobData job.jobId
           { r with
             status := if (executeCommand run).success then "completed" else "failed",
             logs := (executeCommand run).logs ++ lateLines run,
             startedAt := some env.tRunning,
             completedAt := some env.tTerminal }) },
         trace := w.trace ++
           [.update job.jobId "running" [] true,
            .update job.jobId (if (executeCommand run).success then "completed" else "failed")
              (executeCommand run).logs true,
            .hubPost { jobId := job.jobId,
                       status := if (executeCommand run).success then "completed" else "failed",
                       logs := (executeCommand run).logs, completedAt := env.tHub }] }) := by
  have h1 := updateJobStatus_memory_eq w.queue job.jobId "running" [] env.tRunning r hmem hrec
  have h2 := fun (status : String) (logs : List String) =>
    updateJobStatus_memory_eq
      { w.queue with jobData := (assocSet w.queue.jobData job.jobId
          { r with status := "running", logs := [], startedAt := some env.tRunning }) }
      job.jobId status logs env.tTerminal
      { r with status := "running", logs := [], startedAt := some env.tRunning } hmem
      (assocGet_assocSet_same _ _ _)
  have h3 := fun (status : String) =>
    pushToStoredLogs_memory
      { w.queue with jobData := (assocSet w.queue.jobData job.jobId
          { r with status := status, logs := (executeCommand run).logs,
                   startedAt := some env.tRunning, completedAt := some env.tTerminal }) }
      job.jobId (lateLines run)
      { r with status := status, logs := (executeCommand run).logs,
               startedAt := some env.tRunning, completedAt := some env.tTerminal } hmem
      (assocGet_assocSet_same _ _ _)
  simp only [if_true, if_false, reduceCtorEq, String.reduceEq, or_self] at h1
  cases hs : (executeCommand run).success with
  | true =>
    have h2' := h2 "completed" (executeCommand run).logs
    simp only [String.reduceEq, if_false, true_or, if_true] at h2'
    have h3' := h3 "completed"
    cases hhub : env.hub <;>
      simp [processJob, processJobTry, processJobCatch, Act.tryCatch, Act.andThen, callUpdate,
        callExecute, sendHubUpdate, lateHandlers, h1, hchild, hs, h2', hhub,
        assocSet_assocSet_same] <;>
      simpa [assocSet_assocSet_same] using h3'
  | false =>
    have h2' := h2 "failed" (executeCommand run).logs
    simp only [String.reduceEq, if_false, or_true, if_true] at h2'
    have h3' := h3 "failed"
    cases hhub : env.hub <;>
      simp [processJob, processJobTry, processJobCatch, Act.tryCatch, Act.andThen, callUpdate,
        callExecute, sendHubUpdate, lateHandlers, h1, hchild, hs, h2', hhub,
        assocSet_assocSet_same] <;>
      simpa [assocSet_assocSet_same] using h3'

theorem processJob_memory_threw (env : JobEnv) (job : JobView) (w : World) (r : Job)
    (e : String) (hmem : w.queue.memoryMode = true)
    (hrec : assocGet w.queue.jobData job.jobId = some r) (hchild : env.child = .error e) :
    processJob env job w =
      (.ok (),
       { queue := { w.queue with jobData := (assocSet w.queue.jobData job.jobId
           { r with
             status := "failed", logs := ["Error: " ++ e],
             startedAt := some env.tRunning, completedAt := some env.tFallback }) },
         trace := w.trace ++
           [.update job.jobId "running" [] true,
            .update job.jobId "failed" ["Error: " ++ e] true,
            .hubPost { jobId := job.jobId, status := "failed", logs := ["Error: " ++ e],
                       completedAt := env.tHub }] }) := by
  have h1 := updateJobStatus_memory_eq w.queue job.jobId "running" [] env.tRunning r hmem hrec
  have h2 :=
    updateJobStatus_memory_eq
      { w.queue with jobData := (assocSet w.queue.jobData job.jobId
          { r with status := "running", logs := [], startedAt := some env.tRunning }) }
      job.jobId "failed" ["Error: " ++ e] env.tFallback
      { r with status := "running", logs := [], startedAt := some env.tRunning } hmem
      (assocGet_assocSet_same _ _ _)
  simp only [if_true, if_false, reduceCtorEq, String.reduceEq, or_self] at h1
  simp only [String.reduceEq, if_false, or_true, if_true] at h2
  cases hhub : env.hub <;>
    simp [processJob, processJobTry, processJobCatch, Act.tryCatch, Act.andThen, callUpdate, callExecute, sendHubUpdate, h1,
      hchild, h2, hhub, assocSet_assocSet_same]

theorem sendHubUpdate_eq (jobId status : String) (logs : List String) (now : Timestamp)
    (reply : HubReply) (w : World) :
    sendHubUpdate jobId status logs now reply w =
      (.ok (), { w with trace := w.trace ++
        [.hubPost { jobId := jobId, status := status, logs := logs, completedAt := now }] }) := by
  cases reply <;> simp [sendHubUpdate]

theorem processJobCatch_shape (env : JobEnv) (jobId message : String) (w : World) :
    (∃ qf, w.queue.updateJobStatus jobId "failed" ["Error: " ++ message] env.tFallback =
        (.ok (), qf) ∧
      processJobCatch env jobId message w =
        (.ok (), { queue := qf, trace := w.trace ++
          [.update jobId "failed" ["Error: " ++ message] true,
           .hubPost { jobId := jobId, status := "failed", logs := ["Error: " ++ message],
                      completedAt := env.tHub }] })) ∨
    (∃ qf e, w.queue.updateJobStatus jobId "failed" ["Error: " ++ message] env.tFallback =
        (.error e, qf) ∧
      processJobCatch env jobId message w =
        (.ok (), { queue := qf, trace := w.trace ++
          [.update jobId "failed" ["Error: " ++ message] false] })) := by
  rcases h : w.queue.updateJobStatus jobId "failed" ["Error: " ++ message] env.tFallback with
    ⟨e | u, qf⟩
  · right
    exact ⟨qf, e, rfl, by simp [processJobCatch, Act.tryCatch, Act.andThen, callUpdate, h]⟩
  · left
    exact ⟨qf, rfl, by
      simp [processJobCatch, Act.tryCatch, Act.andThen, callUpdate, h, sendHubUpdate_eq]⟩

theorem processJobTry_shape (env : JobEnv) (jobId : String) (w : World) :
    (∃ q1 e, w.queue.updateJobStatus jobId "running" [] env.tRunning = (.error e, q1) ∧
      processJobTry env jobId w =
        (.error e, { queue := q1, trace := w.trace ++ [.update jobId "running" [] false] })) ∨
    (∃ q1 e, w.queue.updateJobStatus jobId "running" [] env.tRunning = (.ok (), q1) ∧
      env.child = .error e ∧
      processJobTry env jobId w =
        (.error e, { queue := q1, trace := w.trace ++ [.update jobId "running" [] true] })) ∨
    (∃ q1 run q2 e, w.queue.updateJobStatus jobId "running" [] env.tRunning = (.ok (), q1) ∧
      env.child = .ok run ∧
      q1.updateJobStatus jobId (if (executeCommand run).success then "completed" else "failed")
        (executeCommand run).logs env.tTerminal = (.error e, q2) ∧
      processJobTry env jobId w =
        (.error e, { queue := q2, trace := w.trace ++
          [.update jobId "running" [] true,
           .update jobId (if (executeCommand run).success then "completed" else "failed")
             (executeCommand run).logs false] })) ∨
    (∃ q1 run q2, w.queue.updateJobStatus jobId "running" [] env.tRunning = (.ok (), q1) ∧
      env.child = .ok run ∧
      q1.updateJobStatus jobId (if (executeCommand run).success then "completed" else "failed")
        (executeCommand run).logs env.tTerminal = (.ok (), q2) ∧
      processJobTry env jobId w =
        (.ok (), { queue := q2.pushToStoredLogs jobId (lateLines run), trace := w.trace ++
          [.update jobId "running" [] true,
           .update jobId (if (executeCommand run).success then "completed" else "failed")
             (executeCommand run).logs true,
           .hubPost { jobId := jobId,
                      status := if (executeCommand run).success then "completed" else "failed",
                      logs := (executeCommand run).logs, completedAt := env.tHub }] })) := by
  rcases h1 : w.queue.updateJobStatus jobId "running" [] env.tRunning with ⟨e | u, q1⟩
  · left
    exact ⟨q1, e, rfl, by simp [processJobTry, Act.andThen, callUpdate, h1]⟩
  · right
    rcases hc : env.child with e | run
    · left
      exact ⟨q1, e, rfl, rfl, by simp [processJobTry, Act.andThen, callUpdate, callExecute, h1, hc]⟩
    · right
      rcases h2 : q1.updateJobStatus jobId
          (if (executeCommand run).success then "completed" else "failed")
          (executeCommand run).logs env.tTerminal with ⟨e | u2, q2⟩
      · left
        refine ⟨q1, run, q2, e, rfl, rfl, h2, ?_⟩
        cases hs : (executeCommand run).success <;>
          simp [hs] at h2 <;>
          simp [processJobTry, Act.andThen, callUpdate, callExecute, h1, hc, hs, h2]
      · right
        refine ⟨q1, run, q2, rfl, rfl, h2, ?_⟩
        cases hs : (executeCommand run).success <;>
          simp [hs] at h2 <;>
          simp [processJobTry, Act.andThen, callUpdate, callExecute, h1, hc, hs, h2,
            sendHubUpdate_eq, lateHandlers]

theorem assocGet_foldl_other (fields : List (String × String)) (k : String)
    (hk : ∀ p ∈ fields, p.1 ≠ k) :
    ∀ old : List (String × String),
      assocGet (fields.foldl (fun h fv => assocSet h fv.1 fv.2) old) k = assocGet old k := by
  induction fields with
  | nil => intro old; rfl
  | cons p rest ih =>
    intro old
    rw [List.foldl_cons, ih (fun p' hp' => hk p' (List.mem_cons_of_mem _ hp'))]
    exact assocGet_assocSet_other _ _ _ _ (Ne.symm (hk p (List.mem_cons_self _ _)))

theorem hGetAll_hSet_status (db : Redis) (key status logsText : String)
    (extra : List (String × String)) (hex : ∀ p ∈ extra, p.1 ≠ "status") :
    assocGet ((db.hSet key ([("status", status), ("logs", logsText)] ++ extra)).hGetAll key)
      "status" = some status := by
  simp only [Redis.hSet, Redis.hGetAll, assocGet_assocSet_same, Option.getD_some,
    List.foldl_append, List.foldl_cons, List.foldl_nil]
  rw [assocGet_foldl_other extra "status" hex,
    assocGet_assocSet_other _ _ _ _ (by decide), assocGet_assocSet_same]

theorem send_ok {α : Type} (q q' : QueueManager) (run : Redis → α × Redis) (a : α)
    (h : q.send run = (.ok a, q')) :
    ∃ c fl, q.client = some c ∧ a = (run c.db).1 ∧
      q' = { q with client := some { c with db := (run c.db).2, faults := fl } } := by
  unfold QueueManager.send at h
  cases hc : q.client with
  | none => simp [hc] at h
  | some c =>
    simp only [hc] at h
    unfold Client.command at h
    cases hf : c.faults with
    | nil =>
      simp only [hf, Prod.mk.injEq, Except.ok.injEq] at h
      exact ⟨c, [], rfl, h.1.symm, by rw [← h.2, ← hf]⟩
    | cons f rest =>
      cases f with
      | none =>
        simp only [hf, Prod.mk.injEq, Except.ok.injEq] at h
        exact ⟨c, rest, rfl, h.1.symm, h.2.symm⟩
      | some msg => simp [hf] at h

theorem recordStatus_after_update (q q' : QueueManager) (jobId status : String)
    (logs : List String) (now : Timestamp)
    (h : q.updateJobStatus jobId status logs now = (.ok (), q')) :
    q'.recordStatus jobId = some status ∨ q'.recordStatus jobId = none := by
  unfold QueueManager.updateJobStatus at h
  cases hh : q.isHealthy with
  | false => simp [hh] at h
  | true =>
    cases hm : q.memoryMode with
    | true =>
      cases hr : assocGet q.jobData jobId with
      | none =>
        simp [hh, hm, hr] at h
        right
        simp [QueueManager.recordStatus, ← h, hm, hr]
      | some r =>
        simp only [hh, hm, hr, Bool.not_true, Bool.false_eq_true, if_false, if_true,
          Prod.mk.injEq, true_and] at h
        left
        simp [QueueManager.recordStatus, ← h, hm, assocGet_assocSet_same]
        split <;> [rfl; (split <;> rfl)]
    | false =>
      simp only [hh, hm, Bool.not_true, Bool.false_eq_true, if_false] at h
      rcases h1 : q.send (fun db => ((), db.set (statusKey jobId) status)) with ⟨e | u, q1⟩
      · simp [h1] at h
      · simp only [h1] at h
        obtain ⟨c1, fl1, hc1, _, hq1⟩ := send_ok q q1 _ u h1
        simp only [List.cons_append, List.nil_append] at h
        rcases h2 : q1.send (fun db => ((), db.hSet (dataKey jobId)
            (("status", status) :: ("logs", jsonStringify logs) ::
              (if status = "running" then [("startedAt", now)]
               else if status = "completed" ∨ status = "failed" then [("completedAt", now)]
               else [])))) with ⟨e | u2, q2⟩
        · simp [h2] at h
        · simp only [h2, Prod.mk.injEq, true_and] at h
          obtain ⟨c2, fl2, hc2, _, hq2⟩ := send_ok q1 q2 _ u2 h2
          left
          have hmem' : q2.memoryMode = false := by
            rw [hq2, hq1]; exact hm
          have hex : ∀ p ∈ (if status = "running" then [("startedAt", now)]
              else if status = "completed" ∨ status = "failed" then [("completedAt", now)]
              else [] : List (String × String)), p.1 ≠ "status" := by
            intro p hp
            split at hp
            · simp at hp; rw [hp]; simp
            · split at hp
              · simp at hp; rw [hp]; simp
              · simp at hp
          rw [← h]
          unfold QueueManager.recordStatus
          rw [hmem', hq2]
          simp only [Bool.false_eq_true, if_false]
          exact hGetAll_hSet_status _ _ _ _ _ hex

theorem hubPosts_append (a b : List Effect) : hubPosts (a ++ b) = hubPosts a ++ hubPosts b := by
  simp [hubPosts, List.filterMap_append]

theorem thrownPrefix_hubPosts (env : JobEnv) (jobId message : String) (pre : List Effect)
    (h : thrownPrefix env jobId message pre) : hubPosts pre = [] := by
  rcases h with h | ⟨h, _⟩ | ⟨run, _, h⟩ <;> simp [h, hubPosts]

theorem processJob_shape (env : JobEnv) (job : JobView) (w : World) :
    (∃ q1 run q2,
      w.queue.updateJobStatus job.jobId "running" [] env.tRunning = (.ok (), q1) ∧
      env.child = .ok run ∧
      q1.updateJobStatus job.jobId
        (if (executeCommand run).success then "completed" else "failed")
        (executeCommand run).logs env.tTerminal = (.ok (), q2) ∧
      processJob env job w =
        (.ok (), { queue := q2.pushToStoredLogs job.jobId (lateLines run), trace := w.trace ++
          [.update job.jobId "running" [] true,
           .update job.jobId (if (executeCommand run).success then "completed" else "failed")
             (executeCommand run).logs true,
           .hubPost { jobId := job.jobId,
                      status := if (executeCommand run).success then "completed" else "failed",
                      logs := (executeCommand run).logs, completedAt := env.tHub }] })) ∨
    (∃ (pre : List Effect) (message : String) (q qf : QueueManager), thrownPrefix env job.jobId message pre ∧
      q.updateJobStatus job.jobId "failed" ["Error: " ++ message] env.tFallback =
        (.ok (), qf) ∧
      processJob env job w =
        (.ok (), { queue := qf, trace := w.trace ++ pre ++
          [.update job.jobId "failed" ["Error: " ++ message] true,
           .hubPost { jobId := job.jobId, status := "failed",
                      logs := ["Error: " ++ message], completedAt := env.tHub }] })) ∨
    (∃ (pre : List Effect) (message : String) (q qf : QueueManager) (e : String), thrownPrefix env job.jobId message pre ∧
      q.updateJobStatus job.jobId "failed" ["Error: " ++ message] env.tFallback =
        (.error e, qf) ∧
      processJob env job w =
        (.ok (), { queue := qf, trace := w.trace ++ pre ++
          [.update job.jobId "failed" ["Error: " ++ message] false] })) := by
  have hthrown : ∀ (message : String) (q : QueueManager) (pre : List Effect),
      thrownPrefix env job.jobId message pre →
      processJobTry env job.jobId w = (.error message, { queue := q, trace := w.trace ++ pre }) →
      (∃ (pre : List Effect) (message : String) (q qf : QueueManager), thrownPrefix env job.jobId message pre ∧
        q.updateJobStatus job.jobId "failed" ["Error: " ++ message] env.tFallback =
          (.ok (), qf) ∧
        processJob env job w =
          (.ok (), { queue := qf, trace := w.trace ++ pre ++
            [.update job.jobId "failed" ["Error: " ++ message] true,
             .hubPost { jobId := job.jobId, status := "failed",
                        logs := ["Error: " ++ message], completedAt := env.tHub }] })) ∨
      (∃ (pre : List Effect) (message : String) (q qf : QueueManager) (e : String), thrownPrefix env job.jobId message pre ∧
        q.updateJobStatus job.jobId "failed" ["Error: " ++ message] env.tFallback =
          (.error e, qf) ∧
        processJob env job w =
          (.ok (), { queue := qf, trace := w.trace ++ pre ++
            [.update job.jobId "failed" ["Error: " ++ message] false] })) := by
    intro message q pre hpre htry
    rcases processJobCatch_shape env job.jobId message { queue := q, trace := w.trace ++ pre }
      with ⟨qf, hu, hc⟩ | ⟨qf, e, hu, hc⟩
    · left
      exact ⟨pre, message, q, qf, hpre, hu, by simp [processJob, Act.tryCatch, htry, hc]⟩
    · right
      exact ⟨pre, message, q, qf, e, hpre, hu, by simp [processJob, Act.tryCatch, htry, hc]⟩
  rcases processJobTry_shape env job.jobId w with
    ⟨q1, e, _, ht⟩ | ⟨q1, e, _, hc, ht⟩ | ⟨q1, run, q2, e, _, hc, _, ht⟩ | ⟨q1, run, q2, h1, hc, h2, ht⟩
  · exact Or.inr (hthrown e q1 _ (Or.inl rfl) ht)
  · exact Or.inr (hthrown e q1 _ (Or.inr (Or.inl ⟨rfl, hc⟩)) ht)
  · exact Or.inr (hthrown e q2 _ (Or.inr (Or.inr ⟨run, hc, rfl⟩)) ht)
  · left
    exact ⟨q1, run, q2, h1, hc, h2, by simp [processJob, Act.tryCatch, ht]⟩

theorem processJob_memory (env : JobEnv) (job : JobView) (w : World) (r : Job)
    (hmem : w.queue.memoryMode = true) (hrec : assocGet w.queue.jobData job.jobId = some r) :
    ∃ (T : String) (logs stored : List String) (tc : Timestamp),
      (T = "completed" ∨ T = "failed") ∧
      processJob env job w =
        (.ok (),
         { queue := { w.queue with jobData := (assocSet w.queue.jobData job.jobId
             { r with status := T, logs := stored, startedAt := some env.tRunning,
                      completedAt := some tc }) },
           trace := w.trace ++
             [.update job.jobId "running" [] true, .update job.jobId T logs true,
              .hubPost { jobId := job.jobId, status := T, logs := logs,
                         completedAt := env.tHub }] }) := by
  rcases hc : env.child with e | run
  · exact ⟨"failed", ["Error: " ++ e], ["Error: " ++ e], env.tFallback, Or.inr rfl,
      processJob_memory_threw env job w r e hmem hrec hc⟩
  · refine ⟨if (executeCommand run).success then "completed" else "failed",
      (executeCommand run).logs, (executeCommand run).logs ++ lateLines run, env.tTerminal, ?_,
      processJob_memory_ran env job w r run hmem hrec hc⟩
    cases (executeCommand run).success <;> simp

theorem dequeueJob_memory_cases (L : Lib) (q : QueueManager) (hmem : q.memoryMode = true) :
    (q.jobQueue = [] ∧ q.dequeueJob L = (.ok none, q)) ∨
    (∃ id rest, q.jobQueue = id :: rest ∧
      (((id = "" ∨ assocGet q.jobData id = none) ∧
          q.dequeueJob L = (.ok none, { q with jobQueue := rest })) ∨
        (id ≠ "" ∧ ∃ r, assocGet q.jobData id = some r ∧
          q.dequeueJob L = (.ok (some (.mem r)), { q with jobQueue := rest })))) := by
  have hh := isHealthy_of_memoryMode q hmem
  cases hq : q.jobQueue with
  | nil =>
    left
    exact ⟨rfl, by simp [QueueManager.dequeueJob, hh, hmem, hq]⟩
  | cons id rest =>
    right
    refine ⟨id, rest, rfl, ?_⟩
    by_cases hid : id = ""
    · left
      exact ⟨Or.inl hid, by simp [QueueManager.dequeueJob, hh, hmem, hq, truthy, hid]⟩
    · cases hr : assocGet q.jobData id with
      | none =>
        left
        exact ⟨Or.inr rfl, by simp [QueueManager.dequeueJob, hh, hmem, hq, truthy, hid, hr]⟩
      | some r =>
        right
        exact ⟨hid, r, rfl, by simp [QueueManager.dequeueJob, hh, hmem, hq, truthy, hid, hr]⟩

theorem workerCycle_pendingQueued (L : Lib) (env : JobEnv) (w : World) (h : PendingQueued w) :
    (w.queue.jobQueue = [] ∧ w.queue.dequeueJob L = (.ok none, w.queue) ∧
      workerCycle L env w = w) ∨
    (∃ rest, w.queue.jobQueue = "" :: rest ∧
      w.queue.dequeueJob L = (.ok none, { w.queue with jobQueue := rest }) ∧
      workerCycle L env w = { w with queue := { w.queue with jobQueue := rest } }) ∨
    (∃ (id : String) (rest : List String) (r : Job) (T : String) (logs stored : List String)
       (tc : Timestamp),
      w.queue.jobQueue = id :: rest ∧ id ≠ "" ∧ assocGet w.queue.jobData id = some r ∧
      r.status = "queued" ∧ r.jobId = id ∧ (T = "completed" ∨ T = "failed") ∧
      w.queue.dequeueJob L = (.ok (some (.mem r)), { w.queue with jobQueue := rest }) ∧
      workerCycle L env w =
        { queue := { w.queue with
            jobQueue := rest,
            jobData := (assocSet w.queue.jobData id
              { r with status := T, logs := stored, startedAt := some env.tRunning,
                       completedAt := some tc }) },
          trace := w.trace ++
            [.update id "running" [] true, .update id T logs true,
             .hubPost { jobId := id, status := T, logs := logs, completedAt := env.tHub }] }) := by
  obtain ⟨hmem, _, hpend, hkey⟩ := h
  have hh := isHealthy_of_memoryMode w.queue hmem
  rcases dequeueJob_memory_cases L w.queue hmem with
    ⟨hq, hd⟩ | ⟨id, rest, hq, ⟨hbad, hd⟩ | ⟨hid, r, hr, hd⟩⟩
  · left
    exact ⟨hq, hd, by simp [workerCycle, hh, hd]⟩
  · right; left
    obtain ⟨r, hr, _⟩ := hpend id (by simp [hq])
    rcases hbad with hid | hnone
    · subst hid
      exact ⟨rest, hq, hd, by simp [workerCycle, hh, hd]⟩
    · rw [hr] at hnone
      cases hnone
  · right; right
    obtain ⟨r', hr', hst⟩ := hpend id (by simp [hq])
    rw [hr] at hr'
    cases hr'
    have hjid : r.jobId = id := hkey id r hr
    obtain ⟨T, logs, stored, tc, hT, hp⟩ := processJob_memory env (.mem r)
      { w with queue := { w.queue with jobQueue := rest } } r hmem
      (by show assocGet w.queue.jobData r.jobId = some r; rw [hjid]; exact hr)
    refine ⟨id, rest, r, T, logs, stored, tc, hq, hid, hr, hst, hjid, hT, hd, ?_⟩
    simp only [workerCycle, hh, hd, Bool.not_true, Bool.false_eq_true, if_false, hp]
    simp [JobView.jobId, hjid]

theorem enqueueJob_pendingQueued (L : Lib) (w : World) (jobId command : String)
    (now : Timestamp) (h : PendingQueued w) (hfresh : jobId ∉ w.queue.jobQueue) :
    PendingQueued { w with queue := (w.queue.enqueueJob L jobId command now).2 } := by
  obtain ⟨hmem, hnd, hpend, hkey⟩ := h
  have hh := isHealthy_of_memoryMode w.queue hmem
  have hstep : (w.queue.enqueueJob L jobId command now).2 =
      { w.queue with jobData := assocSet w.queue.jobData jobId (queuedJob (jobId, command, now)),
                     jobQueue := w.queue.jobQueue ++ [jobId] } := by
    simp [QueueManager.enqueueJob, hh, hmem, queuedJob]
  rw [hstep]
  refine ⟨hmem, ?_, ?_, ?_⟩
  · show (w.queue.jobQueue ++ [jobId]).Nodup
    rw [List.nodup_append]
    exact ⟨hnd, List.nodup_singleton _, by
      intro a ha hb
      simp at hb
      exact hfresh (hb ▸ ha)⟩
  · intro id hid
    have hid' : id ∈ w.queue.jobQueue ++ [jobId] := hid
    show ∃ r, assocGet (assocSet w.queue.jobData jobId (queuedJob (jobId, command, now))) id
      = some r ∧ r.status = "queued"
    by_cases hEq : id = jobId
    · subst hEq
      exact ⟨_, assocGet_assocSet_same _ _ _, rfl⟩
    · rw [assocGet_assocSet_other _ _ _ _ hEq]
      rcases List.mem_append.mp hid' with hm | hm
      · exact hpend id hm
      · simp at hm
        exact absurd hm hEq
  · intro id r hr
    have hr' : assocGet (assocSet w.queue.jobData jobId (queuedJob (jobId, command, now))) id
      = some r := hr
    by_cases hEq : id = jobId
    · subst hEq
      rw [assocGet_assocSet_same] at hr'
      cases hr'
      rfl
    · rw [assocGet_assocSet_other _ _ _ _ hEq] at hr'
      exact hkey id r hr'

theorem workerCycle_preserves_pendingQueued (L : Lib) (env : JobEnv) (w : World)
    (h : PendingQueued w) : PendingQueued (workerCycle L env w) := by
  have h0 := h
  obtain ⟨hmem, hnd, hpend, hkey⟩ := h
  rcases workerCycle_pendingQueued L env w h0 with
    ⟨_, _, hc⟩ | ⟨rest, hq, _, hc⟩ | ⟨id, rest, r, T, logs, stored, tc, hq, _, hr, _, hjid, _, _, hc⟩
  · rw [hc]; exact h0
  · rw [hc]
    rw [hq] at hnd hpend
    exact ⟨hmem, (List.nodup_cons.mp hnd).2,
      fun id hid => hpend id (List.mem_cons_of_mem _ hid), hkey⟩
  · rw [hc]
    rw [hq] at hnd hpend
    have hnotin : id ∉ rest := (List.nodup_cons.mp hnd).1
    refine ⟨hmem, (List.nodup_cons.mp hnd).2, ?_, ?_⟩
    · intro id' hid'
      have hne : id' ≠ id := fun hEq => hnotin (hEq ▸ hid')
      show ∃ r', assocGet (assocSet w.queue.jobData id _) id' = some r' ∧ r'.status = "queued"
      rw [assocGet_assocSet_other _ _ _ _ hne]
      exact hpend id' (List.mem_cons_of_mem _ hid')
    · intro id' r' hr'
      have hr'' : assocGet (assocSet w.queue.jobData id
          { r with status := T, logs := stored, startedAt := some env.tRunning,
                   completedAt := some tc }) id' = some r' := hr'
      by_cases hEq : id' = id
      · subst hEq
        rw [assocGet_assocSet_same] at hr''
        cases hr''
        exact hjid
      · rw [assocGet_assocSet_other _ _ _ _ hEq] at hr''
        exact hkey id' r' hr''

theorem reachableFresh_pendingQueued (L : Lib) (w : World) (h : ReachableFresh L w) :
    PendingQueued w := by
  induction h with
  | init q hmem hq hd =>
    refine ⟨hmem, ?_, ?_, ?_⟩
    · show q.jobQueue.Nodup
      rw [hq]; exact List.nodup_nil
    · intro id hid
      have : id ∈ q.jobQueue := hid
      rw [hq] at this
      cases this
    · intro id r hr
      have : assocGet q.jobData id = some r := hr
      rw [hd] at this
      simp [assocGet] at this
  | enqueue w jobId command now _ hfresh ih =>
    exact enqueueJob_pendingQueued L w jobId command now ih hfresh
  | cycle w env _ ih => exact workerCycle_preserves_pendingQueued L env w ih

theorem recordStatus_pushToStoredLogs (q : QueueManager) (jobId other : String)
    (lines : List String) :
    (q.pushToStoredLogs jobId lines).recordStatus other = q.recordStatus other := by
  unfold QueueManager.pushToStoredLogs
  by_cases hl : lines = []
  · simp [hl]
  · cases hm : q.memoryMode with
    | false => simp [hl, hm]
    | true =>
      cases hr : assocGet q.jobData jobId with
      | none => simp [hl, hm, hr]
      | some r =>
        simp only [hl, hm, hr, if_false, if_true]
        by_cases hEq : other = jobId
        · subst hEq
          simp [QueueManager.recordStatus, hm, assocGet_assocSet_same, hr]
        · simp [QueueManager.recordStatus, hm, assocGet_assocSet_other _ _ _ _ hEq]

/-! ## Theorems -/

/-- C1: in memory mode, whatever the store held before (a record of the same id
included), `enqueueJob(jobId, command)` returns the new job and the
`getJobStatus(jobId)` that follows returns a job with these `jobId` and
`command`, status `queued`, no logs, and neither `startedAt` nor `completedAt`. -/
theorem enqueueJob_then_getJobStatus (L : Lib) (q : QueueManager) (jobId command : String)
    (now : Timestamp) (hmem : q.memoryMode = true) :
    q.isHealthy = true ∧
    (q.enqueueJob L jobId command now).1 =
      .ok { jobId := jobId, command := command, status := "queued", createdAt := now,
            logs := [], startedAt := none, completedAt := none } ∧
    ((q.enqueueJob L jobId command now).2.getJobStatus L jobId).1 =
      .ok (some (.mem { jobId := jobId, command := command, status := "queued",
                        createdAt := now, logs := [], startedAt := none,
                        completedAt := none })) := by
  have hh := isHealthy_of_memoryMode q hmem
  refine ⟨hh, ?_, ?_⟩
  · simp [QueueManager.enqueueJob, hh, hmem]
  · simp [QueueManager.enqueueJob, QueueManager.getJobStatus, QueueManager.isHealthy, hmem,
      assocGet_assocSet_same]

/-- C1, at a store that holds a completed record of the same id. -/
theorem enqueueJob_then_getJobStatus_witness :
    usedMemoryStore.memoryMode = true ∧
    ((usedMemoryStore.enqueueJob sampleLib "j1" "echo hi" "2024-01-02T00:00:00.000Z").2.getJobStatus
        sampleLib "j1").1 =
      .ok (some (.mem { jobId := "j1", command := "echo hi", status := "queued",
                        createdAt := "2024-01-02T00:00:00.000Z", logs := [],
                        startedAt := none, completedAt := none })) :=
  ⟨rfl, (enqueueJob_then_getJobStatus sampleLib usedMemoryStore "j1" "echo hi"
          "2024-01-02T00:00:00.000Z" rfl).2.2⟩

theorem enqueueAll_memory (L : Lib) (jobs : List (String × String × Timestamp)) :
    ∀ q : QueueManager, q.memoryMode = true →
      (enqueueAll L q jobs).memoryMode = true ∧
      (enqueueAll L q jobs).jobQueue = q.jobQueue ++ jobs.map (fun j => j.1) ∧
      (∀ id, id ∉ jobs.map (fun j => j.1) →
        assocGet (enqueueAll L q jobs).jobData id = assocGet q.jobData id) ∧
      ((jobs.map (fun j => j.1)).Nodup →
        ∀ j ∈ jobs, assocGet (enqueueAll L q jobs).jobData j.1 = some (queuedJob j)) := by
  induction jobs with
  | nil => intro q hmem; simp [enqueueAll, hmem]
  | cons j rest ih =>
    intro q hmem
    have hh := isHealthy_of_memoryMode q hmem
    have hstep : (q.enqueueJob L j.1 j.2.1 j.2.2).2 =
        { q with jobData := assocSet q.jobData j.1 (queuedJob j),
                 jobQueue := q.jobQueue ++ [j.1] } := by
      simp [QueueManager.enqueueJob, hh, hmem, queuedJob]
    have hunfold : enqueueAll L q (j :: rest) =
        enqueueAll L (q.enqueueJob L j.1 j.2.1 j.2.2).2 rest := by
      simp [enqueueAll]
    rw [hunfold, hstep]
    obtain ⟨h1, h2, h3, h4⟩ := ih
      { q with jobData := assocSet q.jobData j.1 (queuedJob j),
               jobQueue := q.jobQueue ++ [j.1] } hmem
    refine ⟨h1, ?_, ?_, ?_⟩
    · simp [h2]
    · intro id hid
      simp only [List.map_cons, List.mem_cons, not_or] at hid
      rw [h3 id hid.2]
      exact assocGet_assocSet_other _ _ _ _ hid.1
    · intro hnd j' hj'
      simp only [List.map_cons, List.nodup_cons] at hnd
      rcases List.mem_cons.mp hj' with rfl | hmemr
      · rw [h3 _ hnd.1]
        exact assocGet_assocSet_same _ _ _
      · exact h4 hnd.2 j' hmemr

theorem dequeueN_empty (L : Lib) (k : Nat) :
    ∀ q : QueueManager, q.memoryMode = true → q.jobQueue = [] →
      dequeueN L q k = (List.replicate k (.ok none), q) := by
  induction k with
  | zero => intro q _ _; rfl
  | succ n ih =>
    intro q hmem hq
    have hd : q.dequeueJob L = (.ok none, q) := by
      simp [QueueManager.dequeueJob, isHealthy_of_memoryMode q hmem, hmem, hq]
    simp [dequeueN, hd, ih q hmem hq, List.replicate_succ]

theorem dequeueN_memory (L : Lib) (jobs : List (String × String × Timestamp)) :
    ∀ (q : QueueManager) (k : Nat), q.memoryMode = true →
      q.jobQueue = jobs.map (fun j => j.1) →
      (∀ j ∈ jobs, j.1 ≠ "") →
      (∀ j ∈ jobs, assocGet q.jobData j.1 = some (queuedJob j)) →
      (dequeueN L q k).1 =
          (jobs.take k).map (fun j => .ok (some (.mem (queuedJob j)))) ++
            List.replicate (k - jobs.length) (.ok none) ∧
        (dequeueN L q k).2.jobQueue = (jobs.drop k).map (fun j => j.1) := by
  induction jobs with
  | nil =>
    intro q k hmem hq _ _
    simp at hq
    simp [dequeueN_empty L k q hmem hq, hq]
  | cons j rest ih =>
    intro q k hmem hq hne hrec
    cases k with
    | zero => simp [dequeueN, hq]
    | succ n =>
      have hj : j.1 ≠ "" := hne j (List.mem_cons_self _ _)
      have hd : q.dequeueJob L =
          (.ok (some (.mem (queuedJob j))), { q with jobQueue := rest.map (fun j => j.1) }) := by
        simp [QueueManager.dequeueJob, isHealthy_of_memoryMode q hmem, hmem, hq, truthy, hj,
          hrec j (List.mem_cons_self _ _)]
      obtain ⟨h1, h2⟩ := ih { q with jobQueue := rest.map (fun j => j.1) } n hmem rfl
        (fun j' hj' => hne j' (List.mem_cons_of_mem _ hj'))
        (fun j' hj' => hrec j' (List.mem_cons_of_mem _ hj'))
      simp [dequeueN, hd, h1, h2]

/-- C2 (amended): for pairwise distinct, non-empty job ids enqueued in order into
a memory-mode store with an empty FIFO, `k` calls of `dequeueJob` return the
records of the first `k` ids in enqueue order and then `null` for every further
call; after them the FIFO holds exactly the ids not yet returned, so none of the
returned ids is in it (and none is returned twice). -/
theorem dequeueJob_fifo (L : Lib) (q : QueueManager)
    (jobs : List (String × String × Timestamp)) (k : Nat)
    (hmem : q.memoryMode = true) (hq : q.jobQueue = [])
    (hnodup : (jobs.map (fun j => j.1)).Nodup) (hne : ∀ j ∈ jobs, j.1 ≠ "") :
    (dequeueN L (enqueueAll L q jobs) k).1 =
        (jobs.take k).map (fun j => .ok (some (.mem (queuedJob j)))) ++
          List.replicate (k - jobs.length) (.ok none) ∧
      (dequeueN L (enqueueAll L q jobs) k).2.jobQueue = (jobs.drop k).map (fun j => j.1) ∧
      (∀ j ∈ jobs.take k, j.1 ∉ (dequeueN L (enqueueAll L q jobs) k).2.jobQueue) ∧
      (dequeueN L (enqueueAll L q jobs) (jobs.length + 1)).1 =
        jobs.map (fun j => .ok (some (.mem (queuedJob j)))) ++ [.ok none] := by
  obtain ⟨h1, h2, _, h4⟩ := enqueueAll_memory L jobs q hmem
  rw [hq, List.nil_append] at h2
  have key := fun n => dequeueN_memory L jobs (enqueueAll L q jobs) n h1 h2 hne (h4 hnodup)
  refine ⟨(key k).1, (key k).2, ?_, ?_⟩
  · intro j hj hin
    rw [(key k).2] at hin
    have hsplit : jobs.map (fun j => j.1) =
        (jobs.take k).map (fun j => j.1) ++ (jobs.drop k).map (fun j => j.1) := by
      rw [← List.map_append, List.take_append_drop]
    rw [hsplit] at hnodup
    exact (List.nodup_append.mp hnodup).2.2 (List.mem_map_of_mem _ hj) hin
  · have h := (key (jobs.length + 1)).1
    rw [List.take_of_length_le (Nat.le_succ _)] at h
    simpa using h

/-- C2 as stated fails for the empty string as job id: the record is stored and
the id is pending, yet the first `dequeueJob` pops the id and returns `null`. -/
theorem dequeueJob_empty_id_counterexample :
    (enqueueAll sampleLib emptyMemoryStore [("", "echo hi", "t0")]).jobQueue = [""] ∧
    assocGet (enqueueAll sampleLib emptyMemoryStore [("", "echo hi", "t0")]).jobData "" =
      some (queuedJob ("", "echo hi", "t0")) ∧
    (dequeueN sampleLib (enqueueAll sampleLib emptyMemoryStore [("", "echo hi", "t0")]) 1).1 =
      [.ok none] ∧
    (dequeueN sampleLib (enqueueAll sampleLib emptyMemoryStore [("", "echo hi", "t0")]) 1).2.jobQueue
      = [] := by
  refine ⟨rfl, rfl, rfl, rfl⟩

/-- C2 (amended), at three jobs and four calls. -/
theorem dequeueJob_fifo_witness :
    (dequeueN sampleLib
        (enqueueAll sampleLib emptyMemoryStore
          [("a", "ls", "t0"), ("b", "pwd", "t1"), ("c", "date", "t2")]) 4).1 =
      [.ok (some (.mem (queuedJob ("a", "ls", "t0")))),
       .ok (some (.mem (queuedJob ("b", "pwd", "t1")))),
       .ok (some (.mem (queuedJob ("c", "date", "t2")))), .ok none] :=
  (dequeueJob_fifo sampleLib emptyMemoryStore
    [("a", "ls", "t0"), ("b", "pwd", "t1"), ("c", "date", "t2")] 4 rfl rfl
    (by decide) (by decide)).2.2.2

/-- C3: on a store for which `isHealthy()` is false, `enqueueJob` and
`dequeueJob` throw `Queue not available` and leave the whole store (the pending
FIFO and the record table included) as it was; a newly constructed store is
such a store. -/
theorem unhealthy_store_rejects (L : Lib) (q : QueueManager) (jobId command : String)
    (now : Timestamp) (h : q.isHealthy = false) :
    q.enqueueJob L jobId command now = (.error "Queue not available", q) ∧
    q.dequeueJob L = (.error "Queue not available", q) ∧
    (∀ url, (QueueManager.new url).isHealthy = false) := by
  refine ⟨?_, ?_, ?_⟩
  · simp [QueueManager.enqueueJob, h, notAvailable]
  · simp [QueueManager.dequeueJob, h, notAvailable]
  · intro url
    simp [QueueManager.new, QueueManager.isHealthy]

/-- C3, at a newly constructed store. -/
theorem unhealthy_store_rejects_witness :
    (QueueManager.new "redis://localhost:6379").isHealthy = false ∧
    ((QueueManager.new "redis://localhost:6379").enqueueJob sampleLib "j1" "ls" "t0" =
        (.error "Queue not available", QueueManager.new "redis://localhost:6379") ∧
      (QueueManager.new "redis://localhost:6379").dequeueJob sampleLib =
        (.error "Queue not available", QueueManager.new "redis://localhost:6379")) :=
  ⟨rfl,
   (unhealthy_store_rejects sampleLib (QueueManager.new "redis://localhost:6379") "j1" "ls" "t0"
      rfl).1,
   (unhealthy_store_rejects sampleLib (QueueManager.new "redis://localhost:6379") "j1" "ls" "t0"
      rfl).2.1⟩

/-- C4: in memory mode, `updateJobStatus(jobId, status, logs)` on an id with a
record returns normally; the record gets the given status and logs, `startedAt`
when the status is `running`, `completedAt` when it is `completed` or `failed`,
and keeps every other field (`jobId`, `command`, `createdAt` among them); every
other id keeps its record, no key is added or removed, and the pending FIFO and
the connection fields are unchanged. -/
theorem updateJobStatus_memory (q : QueueManager) (jobId status : String) (logs : List String)
    (now : Timestamp) (r : Job) (hmem : q.memoryMode = true)
    (hrec : assocGet q.jobData jobId = some r) :
    (q.updateJobStatus jobId status logs now).1 = .ok () ∧
    assocGet (q.updateJobStatus jobId status logs now).2.jobData jobId =
      some { r with
        status := status, logs := logs,
        startedAt := if status = "running" then some now else r.startedAt,
        completedAt :=
          if status = "completed" ∨ status = "failed" then some now else r.completedAt } ∧
    (∀ other, other ≠ jobId →
      assocGet (q.updateJobStatus jobId status logs now).2.jobData other =
        assocGet q.jobData other) ∧
    (q.updateJobStatus jobId status logs now).2.jobData.map Prod.fst =
      q.jobData.map Prod.fst ∧
    (q.updateJobStatus jobId status logs now).2.jobQueue = q.jobQueue ∧
    (q.updateJobStatus jobId status logs now).2.memoryMode = q.memoryMode ∧
    (q.updateJobStatus jobId status logs now).2.isConnected = q.isConnected ∧
    (q.updateJobStatus jobId status logs now).2.client = q.client := by
  have hstep := updateJobStatus_memory_eq q jobId status logs now r hmem hrec
  rw [hstep]
  refine ⟨rfl, assocGet_assocSet_same _ _ _, ?_, ?_, rfl, rfl, rfl, rfl⟩
  · intro other hother
    exact assocGet_assocSet_other _ _ _ _ hother
  · exact assocSet_keys_of_mem _ _ _ r hrec

/-- C4, at the completed record of `usedMemoryStore` set to `running`. -/
theorem updateJobStatus_memory_witness :
    assocGet (usedMemoryStore.updateJobStatus "j1" "running" [] "2024-01-03T00:00:00.000Z").2.jobData
        "j1" =
      some { jobId := "j1", command := "ls", status := "running",
             createdAt := "2024-01-01T00:00:00.000Z", logs := [],
             startedAt := some "2024-01-03T00:00:00.000Z",
             completedAt := some "2024-01-01T00:00:02.000Z" } :=
  (updateJobStatus_memory usedMemoryStore "j1" "running" [] "2024-01-03T00:00:00.000Z"
    { jobId := "j1", command := "ls", status := "completed",
      createdAt := "2024-01-01T00:00:00.000Z",
      logs := ["[system] Process exited with code: 0"],
      startedAt := some "2024-01-01T00:00:01.000Z",
      completedAt := some "2024-01-01T00:00:02.000Z" } rfl rfl).2.1

/-- C5: in memory mode `updateJobStatus` on an id without a record changes
nothing, but in Redis mode the same call on a server that holds nothing creates
the status scalar `job:ghost:status` and a hash `job:ghost:data` with the fields
`status`, `logs` and `completedAt`. -/
theorem updateJobStatus_unknown_id_redis_writes :
    emptyMemoryStore.updateJobStatus "ghost" "failed" [] "2024-01-01T00:00:00.000Z" =
      (.ok (), emptyMemoryStore) ∧
    emptyRedisStore.isHealthy = true ∧
    (emptyRedisStore.getJobStatus sampleLib "ghost").1 = .ok none ∧
    emptyRedisStore.updateJobStatus "ghost" "failed" [] "2024-01-01T00:00:00.000Z" =
      (.ok (),
       { emptyRedisStore with
         client := some
           { isReady := true,
             db := { strings := [("job:ghost:status", "failed")],
                     hashes := [("job:ghost:data",
                       [("status", "failed"), ("logs", "[]"),
                        ("completedAt", "2024-01-01T00:00:00.000Z")])],
                     lists := [] },
             faults := [] } }) := by
  refine ⟨rfl, rfl, rfl, rfl⟩

/-- C10: for a child that ends with `close` or `error` (signal names are never
the empty string), `executeCommand` reports success exactly when the child
closed with exit code 0 and no signal; a close with a signal, a close with
another exit code and an `error` event report failure; the last log line is the
`[system]` line of the exit code when there is no signal and the `[system]`
line of the signal when there is one. -/
theorem executeCommand_outcome (run : ChildRun)
    (hsig : ∀ code, run.term ≠ .close code (some "")) :
    ((executeCommand run).success = true ↔ run.term = .close (some 0) none) ∧
    (∀ code sig, run.term = .close code (some sig) →
      (executeCommand run).success = false ∧
      (executeCommand run).logs.getLast? =
        some ("[system] Process terminated by signal: " ++ sig)) ∧
    (∀ code, run.term = .close code none →
      ((executeCommand run).success = false ↔ code ≠ some 0) ∧
      (executeCommand run).logs.getLast? =
        some ("[system] Process exited with code: " ++ codeText code)) ∧
    (∀ n : Int, codeText (some n) = toString n) ∧
    (∀ message, run.term = .error message →
      (executeCommand run).success = false ∧
      (executeCommand run).logs.getLast? =
        some ("[system] Execution error: " ++ message)) := by
  obtain ⟨output, term⟩ := run
  cases term with
  | error message => simp [executeCommand, codeText]
  | close code signal =>
    cases signal with
    | none => simp [executeCommand, truthy, codeText]
    | some sig =>
      have hne : sig ≠ "" := by
        intro h
        exact hsig code (by simp [h])
      simp [executeCommand, truthy, hne, codeText]

/-- C10, at a child that printed one line and was killed on timeout. -/
theorem executeCommand_outcome_witness :
    (executeCommand
        { output := [(.stdout, "working\n")], term := .close none (some "SIGTERM") }).success
      = false ∧
    (executeCommand
        { output := [(.stdout, "working\n")], term := .close none (some "SIGTERM") }).logs.getLast?
      = some ("[system] Process terminated by signal: " ++ "SIGTERM") :=
  (executeCommand_outcome
    { output := [(.stdout, "working\n")], term := .close none (some "SIGTERM") }
    (by intro code; simp)).2.1 none "SIGTERM" rfl

/-- What `processJob` does to a job whose record is in a memory-mode store when
the command ran: it returns normally; the record gets status `completed` if the
executor reported success and `failed` if not; its logs are the executor's logs
followed by the lines pushed to the same array after the resolution
(`lateLines`, none for a child that ended with `close`); every other record and
the pending FIFO are as before; and the calls made are the `running` update,
the terminal update, and one Hub post with that status and the executor's logs,
whatever the Hub answers. -/
theorem processJob_memory_outcome (env : JobEnv) (job : JobView) (w : World) (r : Job)
    (run : ChildRun) (hmem : w.queue.memoryMode = true)
    (hrec : assocGet w.queue.jobData job.jobId = some r) (hchild : env.child = .ok run) :
    (processJob env job w).1 = .ok () ∧
    assocGet (processJob env job w).2.queue.jobData job.jobId =
      some { r with
        status := if (executeCommand run).success then "completed" else "failed",
        logs := (executeCommand run).logs ++ lateLines run,
        startedAt := some env.tRunning, completedAt := some env.tTerminal } ∧
    (∀ code signal, run.term = .close code signal → lateLines run = []) ∧
    (∀ other, other ≠ job.jobId →
      assocGet (processJob env job w).2.queue.jobData other =
        assocGet w.queue.jobData other) ∧
    (processJob env job w).2.queue.jobQueue = w.queue.jobQueue ∧
    (processJob env job w).2.trace = w.trace ++
      [.update job.jobId "running" [] true,
       .update job.jobId (if (executeCommand run).success then "completed" else "failed")
         (executeCommand run).logs true,
       .hubPost { jobId := job.jobId,
                  status := if (executeCommand run).success then "completed" else "failed",
                  logs := (executeCommand run).logs, completedAt := env.tHub }] := by
  rw [processJob_memory_ran env job w r run hmem hrec hchild]
  refine ⟨rfl, assocGet_assocSet_same _ _ _, ?_, ?_, rfl, rfl⟩
  · intro code signal hterm
    simp [lateLines, hterm]
  · intro other hother
    exact assocGet_assocSet_other _ _ _ _ hother

/-- C7: the code breaks the claim for a command that cannot be spawned.  Node
emits `error` and then `close` with code -13; the `error` handler resolves the
result with one `[system]` line, `processJob` stores that array in the record
and posts it to the Hub, and the `close` handler then pushes a second `[system]`
line to the same array: the record ends `failed` with two `[system]` lines while
the executor's result and the Hub post hold one. -/
theorem processJob_late_close_divergence :
    spawnFailureWorld.queue.memoryMode = true ∧
    assocGet spawnFailureWorld.queue.jobData "j1" =
      some (queuedJob ("j1", "echo hi", "2024-01-01T00:00:00.000Z")) ∧
    (executeCommand spawnFailureRun).success = false ∧
    (executeCommand spawnFailureRun).logs =
      ["[system] Execution error: spawn /bin/sh EACCES"] ∧
    (processJob spawnFailureEnv (.mem (queuedJob ("j1", "echo hi", "2024-01-01T00:00:00.000Z")))
      spawnFailureWorld).1 = .ok () ∧
    assocGet
        (processJob spawnFailureEnv
          (.mem (queuedJob ("j1", "echo hi", "2024-01-01T00:00:00.000Z")))
          spawnFailureWorld).2.queue.jobData "j1" =
      some { jobId := "j1", command := "echo hi", status := "failed",
             createdAt := "2024-01-01T00:00:00.000Z",
             logs := ["[system] Execution error: spawn /bin/sh EACCES",
                      "[system] Process exited with code: -13"],
             startedAt := some "2024-01-01T00:00:01.000Z",
             completedAt := some "2024-01-01T00:00:02.000Z" } ∧
    hubPosts
        (processJob spawnFailureEnv
          (.mem (queuedJob ("j1", "echo hi", "2024-01-01T00:00:00.000Z")))
          spawnFailureWorld).2.trace =
      [{ jobId := "j1", status := "failed",
         logs := ["[system] Execution error: spawn /bin/sh EACCES"],
         completedAt := "2024-01-01T00:00:04.000Z" }] := by
  refine ⟨rfl, rfl, rfl, rfl, rfl, rfl, rfl⟩

/-- C8 as stated fails when the update of the `catch` block throws as well: on a
Redis-mode store whose server rejects writes after the `running` update, the
terminal update and the `failed` update both throw, `processJob` returns, the
Hub is not notified and the record is left `running`. -/
theorem processJob_left_running_counterexample :
    flakyRedisStore.isHealthy = true ∧
    flakyRedisStore.recordStatus "j1" = some "queued" ∧
    (processJob sampleEnv flakyJob { queue := flakyRedisStore, trace := [] }).1 = .ok () ∧
    (processJob sampleEnv flakyJob { queue := flakyRedisStore, trace := [] }).2.queue.recordStatus
        "j1" = some "running" ∧
    (processJob sampleEnv flakyJob { queue := flakyRedisStore, trace := [] }).2.trace =
      [.update "j1" "running" [] true,
       .update "j1" "completed" ["[stdout] hi", "[system] Process exited with code: 0"] false,
       .update "j1" "failed"
         ["Error: READONLY You can not write against a read only replica."] false] := by
  refine ⟨rfl, rfl, rfl, rfl, rfl⟩

/-- C8 (amended): `processJob` returns normally whatever its store calls and
`exec` do.  Either every call returned, and the record is not `running`; or a
step before the notification threw and the `failed` update of the `catch` block
returned: that update carries the single line `Error: <message>`, the Hub is
then notified of `failed` with that line, and the record is not `running`; or
that update threw as well, and then no Hub post is made. -/
theorem processJob_returns_and_falls_back (env : JobEnv) (job : JobView) (w : World) :
    (processJob env job w).1 = .ok () ∧
    ((∃ run, env.child = .ok run ∧
        (processJob env job w).2.trace = w.trace ++
          [.update job.jobId "running" [] true,
           .update job.jobId (if (executeCommand run).success then "completed" else "failed")
             (executeCommand run).logs true,
           .hubPost { jobId := job.jobId,
                      status := if (executeCommand run).success then "completed" else "failed",
                      logs := (executeCommand run).logs, completedAt := env.tHub }] ∧
        (processJob env job w).2.queue.recordStatus job.jobId ≠ some "running") ∨
     (∃ (pre : List Effect) (message : String), thrownPrefix env job.jobId message pre ∧
        (processJob env job w).2.trace = w.trace ++ pre ++
          [.update job.jobId "failed" ["Error: " ++ message] true,
           .hubPost { jobId := job.jobId, status := "failed",
                      logs := ["Error: " ++ message], completedAt := env.tHub }] ∧
        ((processJob env job w).2.queue.recordStatus job.jobId = some "failed" ∨
         (processJob env job w).2.queue.recordStatus job.jobId = none)) ∨
     (∃ (pre : List Effect) (message : String), thrownPrefix env job.jobId message pre ∧
        (processJob env job w).2.trace = w.trace ++ pre ++
          [.update job.jobId "failed" ["Error: " ++ message] false] ∧
        hubPosts ((processJob env job w).2.trace.drop w.trace.length) = [])) := by
  rcases processJob_shape env job w with
    ⟨q1, run, q2, _, hc, h2, hp⟩ | ⟨pre, message, q, qf, hpre, hu, hp⟩ |
    ⟨pre, message, q, qf, e, hpre, _, hp⟩
  · rw [hp]
    refine ⟨rfl, Or.inl ⟨run, hc, rfl, ?_⟩⟩
    rcases recordStatus_after_update _ _ _ _ _ _ h2 with hs | hs
    · show (q2.pushToStoredLogs job.jobId (lateLines run)).recordStatus job.jobId ≠
        some "running"
      rw [recordStatus_pushToStoredLogs, hs]
      cases (executeCommand run).success <;> simp
    · show (q2.pushToStoredLogs job.jobId (lateLines run)).recordStatus job.jobId ≠
        some "running"
      rw [recordStatus_pushToStoredLogs, hs]
      simp
  · rw [hp]
    exact ⟨rfl, Or.inr (Or.inl ⟨pre, message, hpre, rfl,
      recordStatus_after_update _ _ _ _ _ _ hu⟩)⟩
  · rw [hp]
    refine ⟨rfl, Or.inr (Or.inr ⟨pre, message, hpre, rfl, ?_⟩)⟩
    show hubPosts ((w.trace ++ pre ++
      [Effect.update job.jobId "failed" ["Error: " ++ message] false]).drop w.trace.length) = []
    rw [List.append_assoc, List.drop_left, hubPosts_append,
      thrownPrefix_hubPosts env job.jobId message pre hpre]
    rfl

/-- C9: on every path of one call of `processJob`, at most one Hub post is
made; a post carries the job's id and the status `completed` or `failed`, and
the call right before it is an `updateJobStatus` with that id, status and logs
that returned, with no Hub post before it. -/
theorem hub_notified_at_most_once (env : JobEnv) (job : JobView) (w : World) :
    ∃ t, (processJob env job w).2.trace = w.trace ++ t ∧
      (hubPosts t).length ≤ 1 ∧
      ∀ p ∈ hubPosts t,
        (p.status = "completed" ∨ p.status = "failed") ∧ p.jobId = job.jobId ∧
        ∃ pre, hubPosts pre = [] ∧
          t = pre ++ [.update p.jobId p.status p.logs true, .hubPost p] := by
  rcases processJob_shape env job w with
    ⟨q1, run, q2, _, hc, h2, hp⟩ | ⟨pre, message, q, qf, hpre, hu, hp⟩ |
    ⟨pre, message, q, qf, e, hpre, _, hp⟩
  · rw [hp]
    refine ⟨_, rfl, by simp [hubPosts], ?_⟩
    intro p hmem
    simp [hubPosts] at hmem
    subst hmem
    refine ⟨?_, rfl, [.update job.jobId "running" [] true], by simp [hubPosts], by simp⟩
    cases (executeCommand run).success <;> simp
  · rw [hp]
    have hpre0 := thrownPrefix_hubPosts env job.jobId message pre hpre
    refine ⟨pre ++ [.update job.jobId "failed" ["Error: " ++ message] true,
      .hubPost { jobId := job.jobId, status := "failed", logs := ["Error: " ++ message],
                 completedAt := env.tHub }], by simp [List.append_assoc], ?_, ?_⟩
    · rw [hubPosts_append, hpre0]
      simp [hubPosts]
    · intro p hmem
      rw [hubPosts_append, hpre0] at hmem
      simp [hubPosts] at hmem
      subst hmem
      exact ⟨Or.inr rfl, rfl, pre, hpre0, rfl⟩
  · rw [hp]
    have hpre0 := thrownPrefix_hubPosts env job.jobId message pre hpre
    refine ⟨pre ++ [.update job.jobId "failed" ["Error: " ++ message] false],
      by simp [List.append_assoc], ?_, ?_⟩
    · rw [hubPosts_append, hpre0]
      simp [hubPosts]
    · intro p hmem
      rw [hubPosts_append, hpre0] at hmem
      simp [hubPosts] at hmem

/-- C6 as stated fails when an id is enqueued again while it is still pending:
after `enqueueJob("a")` twice and one turn of the worker the record of `a` is
`completed` and `a` is still in the FIFO; the next turn dequeues it and writes
`running` over `completed`, with no enqueue in between. -/
theorem running_over_completed_counterexample :
    Reachable sampleLib doubleEnqueueWorld ∧
    doubleEnqueueWorld.queue.jobQueue = ["a"] ∧
    doubleEnqueueWorld.queue.recordStatus "a" = some "completed" ∧
    (((doubleEnqueueWorld.queue.dequeueJob sampleLib).2.updateJobStatus "a" "running" []
        sampleEnv.tRunning).2.recordStatus "a" = some "running") ∧
    (workerCycle sampleLib sampleEnv doubleEnqueueWorld).trace =
      doubleEnqueueWorld.trace ++
        [.update "a" "running" [] true,
         .update "a" "completed" ["[stdout] hi", "[system] Process exited with code: 0"] true,
         .hubPost { jobId := "a", status := "completed",
                    logs := ["[stdout] hi", "[system] Process exited with code: 0"],
                    completedAt := "2024-01-01T00:00:04.000Z" }] := by
  refine ⟨?_, rfl, rfl, rfl, rfl⟩
  exact Reachable.cycle _ sampleEnv
    (Reachable.enqueue
      { queue := (emptyMemoryStore.enqueueJob sampleLib "a" "echo hi"
          "2024-01-01T00:00:00.000Z").2, trace := [] }
      "a" "echo hi" "2024-01-01T00:00:00.500Z"
      (Reachable.enqueue { queue := emptyMemoryStore, trace := [] } "a" "echo hi"
        "2024-01-01T00:00:00.000Z" (Reachable.init emptyMemoryStore rfl rfl rfl)))

/-- C6 (amended): in every state reached from an empty memory-mode store by
`enqueueJob` calls and worker turns in which no id is enqueued while it is still
pending, `dequeueJob` does not throw, and a worker turn either dequeues nothing
and then makes no store call and changes no record, or dequeues a job whose
record is `queued` and then makes exactly the calls `running` update, terminal
update (`completed` or `failed`) and Hub post for that id, leaving the record
terminal and every other record as it was; in particular a record that is
`completed` or `failed` is not changed by a worker turn. -/
theorem status_transitions_in_order (L : Lib) (w : World) (env : JobEnv)
    (h : ReachableFresh L w) :
    (∀ e, (w.queue.dequeueJob L).1 ≠ .error e) ∧
    ((w.queue.dequeueJob L).1 = .ok none →
      (workerCycle L env w).queue.jobData = w.queue.jobData ∧
      (workerCycle L env w).trace = w.trace) ∧
    (∀ job, (w.queue.dequeueJob L).1 = .ok (some job) →
      w.queue.recordStatus job.jobId = some "queued" ∧
      ∃ (T : String) (logs : List String), (T = "completed" ∨ T = "failed") ∧
        (workerCycle L env w).trace = w.trace ++
          [.update job.jobId "running" [] true, .update job.jobId T logs true,
           .hubPost { jobId := job.jobId, status := T, logs := logs,
                      completedAt := env.tHub }] ∧
        (workerCycle L env w).queue.recordStatus job.jobId = some T ∧
        ∀ other, other ≠ job.jobId →
          assocGet (workerCycle L env w).queue.jobData other =
            assocGet w.queue.jobData other) ∧
    (∀ id r, assocGet w.queue.jobData id = some r →
      (r.status = "completed" ∨ r.status = "failed") →
      assocGet (workerCycle L env w).queue.jobData id = some r) := by
  have hinv := reachableFresh_pendingQueued L w h
  have hmem := hinv.1
  rcases workerCycle_pendingQueued L env w hinv with
    ⟨_, hd, hc⟩ | ⟨rest, _, hd, hc⟩ |
    ⟨id, rest, r, T, logs, stored, tc, _, _, hr, hst, hjid, hT, hd, hc⟩
  · rw [hc, hd]
    refine ⟨by simp, fun _ => ⟨rfl, rfl⟩, by simp, fun id r hr _ => hr⟩
  · rw [hc, hd]
    refine ⟨by simp, fun _ => ⟨rfl, rfl⟩, by simp, fun id r hr _ => hr⟩
  · rw [hc, hd]
    refine ⟨by simp, by simp, ?_, ?_⟩
    · intro job hjob
      simp only [Except.ok.injEq, Option.some.injEq] at hjob
      subst hjob
      simp only [JobView.jobId, hjid]
      refine ⟨by simp [QueueManager.recordStatus, hmem, hr, hst], T, logs, hT, rfl, ?_, ?_⟩
      · simp [QueueManager.recordStatus, hmem, assocGet_assocSet_same]
      · intro other hother
        exact assocGet_assocSet_other _ _ _ _ hother
    · intro id' r' hr' hterm
      have hne : id' ≠ id := by
        intro hEq
        subst hEq
        rw [hr] at hr'
        cases hr'
        rw [hst] at hterm
        simp at hterm
      show assocGet (assocSet w.queue.jobData id _) id' = some r'
      rw [assocGet_assocSet_other _ _ _ _ hne]
      exact hr'

/-- C6 (amended), at the state after `enqueueJob("a")` and `enqueueJob("b")`:
the worker turn dequeues `a`, whose record is `queued`. -/
theorem status_transitions_in_order_witness :
    (enqueueAll sampleLib emptyMemoryStore
        [("a", "echo hi", "t0"), ("b", "ls", "t1")]).recordStatus "a" = some "queued" :=
  ((status_transitions_in_order sampleLib
    { queue := enqueueAll sampleLib emptyMemoryStore
        [("a", "echo hi", "t0"), ("b", "ls", "t1")], trace := [] }
    sampleEnv
    (ReachableFresh.enqueue
      { queue := (emptyMemoryStore.enqueueJob sampleLib "a" "echo hi" "t0").2, trace := [] }
      "b" "ls" "t1"
      (ReachableFresh.enqueue { queue := emptyMemoryStore, trace := [] } "a" "echo hi" "t0"
        (ReachableFresh.init emptyMemoryStore rfl rfl rfl) (by decide))
      (by decide))).2.2.1 (.mem (queuedJob ("a", "echo hi", "t0"))) rfl).1

/-- C11 as stated fails at the fifth and the sixth call (`retries` 4 and 5): the
strategy still returns a delay (800 ms, 1600 ms) and leaves the mode `redis`;
it stops at `retries = 6`. -/
theorem reconnectStrategy_counterexample :
    (QueueManager.new "redis://localhost:6379").reconnectStrategy 4 =
      (some 800, QueueManager.new "redis://localhost:6379") ∧
    (QueueManager.new "redis://localhost:6379").reconnectStrategy 5 =
      (some 1600, QueueManager.new "redis://localhost:6379") ∧
    ((QueueManager.new "redis://localhost:6379").reconnectStrategy 5).2.getMode = "redis" ∧
    ((QueueManager.new "redis://localhost:6379").reconnectStrategy 6).1 = none ∧
    ((QueueManager.new "redis://localhost:6379").reconnectStrategy 6).2.getMode = "memory" := by
  refine ⟨rfl, rfl, rfl, rfl, rfl⟩

/-- C11 (amended): for `retries ≤ 5` the strategy returns the delay
`min(50 * 2^retries, 3000)` ms, which is `50 * 2^retries` (the cap is not
reached), and leaves the store as it is; for `retries > 5` it returns no delay
and sets the mode to memory, which makes the store healthy. -/
theorem reconnectStrategy_delays (q : QueueManager) (retries : Nat) :
    (retries ≤ 5 →
      q.reconnectStrategy retries = (some (min (50 * 2 ^ retries) 3000), q) ∧
      min (50 * 2 ^ retries) 3000 = 50 * 2 ^ retries) ∧
    (5 < retries →
      q.reconnectStrategy retries = (none, { q with memoryMode := true }) ∧
      (q.reconnectStrategy retries).2.getMode = "memory" ∧
      (q.reconnectStrategy retries).2.isHealthy = true) := by
  refine ⟨?_, ?_⟩
  · intro h
    refine ⟨by simp [QueueManager.reconnectStrategy, Nat.not_lt.mpr h], ?_⟩
    have hpow : 2 ^ retries ≤ 2 ^ 5 := Nat.pow_le_pow_right (by decide) h
    omega
  · intro h
    simp [QueueManager.reconnectStrategy, h, QueueManager.getMode, QueueManager.isHealthy]

/-- C11 (amended), at the seventh call of a new store. -/
theorem reconnectStrategy_delays_witness :
    (QueueManager.new "redis://localhost:6379").reconnectStrategy 6 =
      (none, { QueueManager.new "redis://localhost:6379" with memoryMode := true }) :=
  ((reconnectStrategy_delays (QueueManager.new "redis://localhost:6379") 6).2 (by decide)).1

theorem send_fields {α : Type} (q q1 : QueueManager) (run : Redis → α × Redis)
    (r : Except String α) (h : q.send run = (r, q1)) :
    q1.memoryMode = q.memoryMode ∧ q1.isConnected = q.isConnected ∧
    q1.jobQueue = q.jobQueue ∧ q1.jobData = q.jobData := by
  unfold QueueManager.send at h
  cases hc : q.client with
  | none =>
    simp only [hc, Prod.mk.injEq] at h
    rw [← h.2]
    exact ⟨rfl, rfl, rfl, rfl⟩
  | some c =>
    simp only [hc, Prod.mk.injEq] at h
    rw [← h.2]
    exact ⟨rfl, rfl, rfl, rfl⟩

theorem enqueueJob_frame (L : Lib) (q : QueueManager) (jobId command : String)
    (now : Timestamp) :
    (q.enqueueJob L jobId command now).2.memoryMode = q.memoryMode ∧
    (((q.enqueueJob L jobId command now).2.jobQueue = q.jobQueue ∧
        (q.enqueueJob L jobId command now).2.jobData = q.jobData) ∨
      ((q.enqueueJob L jobId command now).2.jobQueue = q.jobQueue ++ [jobId] ∧
        (q.enqueueJob L jobId command now).2.jobData =
          assocSet q.jobData jobId (queuedJob (jobId, command, now)))) := by
  unfold QueueManager.enqueueJob
  cases hh : q.isHealthy with
  | false => simp
  | true =>
    cases hm : q.memoryMode with
    | true => simp [queuedJob]
    | false =>
      simp only [Bool.not_true, Bool.false_eq_true, if_false]
      cases L.encodeArray [] with
      | error e => simp [hm]
      | ok logsField =>
        simp only
        rcases h1 : q.send (fun db => ((), db.hSet (dataKey jobId)
            [("jobId", jobId), ("command", command), ("status", "queued"),
             ("createdAt", now), ("logs", logsField)])) with ⟨e | u, q1⟩
        · obtain ⟨a, _, c, d⟩ := send_fields q q1 _ _ h1
          simp [a, c, d, hm]
        · obtain ⟨a1, _, c1, d1⟩ := send_fields q q1 _ _ h1
          simp only
          rcases h2 : q1.send (fun db => ((), db.set (statusKey jobId) "queued")) with
            ⟨e | u2, q2⟩
          · obtain ⟨a, _, c, d⟩ := send_fields q1 q2 _ _ h2
            simp [a, c, d, a1, c1, d1, hm]
          · obtain ⟨a2, _, c2, d2⟩ := send_fields q1 q2 _ _ h2
            simp only
            rcases h3 : q2.send (fun db => ((), db.lPush queueKey jobId)) with ⟨e | u3, q3⟩
            · obtain ⟨a, _, c, d⟩ := send_fields q2 q3 _ _ h3
              simp [a, c, d, a1, c1, d1, a2, c2, d2, hm]
            · obtain ⟨a, _, c, d⟩ := send_fields q2 q3 _ _ h3
              simp [a, c, d, a1, c1, d1, a2, c2, d2, hm]

theorem dequeueJob_frame (L : Lib) (q : QueueManager) :
    (q.dequeueJob L).2.memoryMode = q.memoryMode ∧
    (q.dequeueJob L).2.jobData = q.jobData ∧
    ((q.dequeueJob L).2.jobQueue = q.jobQueue ∨
      ∃ id, q.jobQueue = id :: (q.dequeueJob L).2.jobQueue) := by
  unfold QueueManager.dequeueJob
  cases hh : q.isHealthy with
  | false => simp
  | true =>
    cases hm : q.memoryMode with
    | true =>
      simp only [Bool.not_true, Bool.false_eq_true, if_false, if_true]
      cases hq : q.jobQueue with
      | nil => simp [hm, hq]
      | cons id rest =>
        simp only
        split
        · simp [hm, hq]
        · cases assocGet q.jobData id <;> simp [hm, hq]
    | false =>
      simp only [Bool.not_true, Bool.false_eq_true, if_false]
      rcases h1 : q.send (fun db => db.brPop queueKey) with ⟨e | popped, q1⟩
      · obtain ⟨a, _, c, d⟩ := send_fields q q1 _ _ h1
        simp [a, c, d, hm]
      · obtain ⟨a1, _, c1, d1⟩ := send_fields q q1 _ _ h1
        cases popped with
        | none => simp [a1, c1, d1, hm]
        | some jobId =>
          simp only
          rcases h2 : q1.send (fun db => (db.hGetAll (dataKey jobId), db)) with ⟨e | h, q2⟩
          · obtain ⟨a, _, c, d⟩ := send_fields q1 q2 _ _ h2
            simp [a, c, d, a1, c1, d1, hm]
          · obtain ⟨a, _, c, d⟩ := send_fields q1 q2 _ _ h2
            simp [a, c, d, a1, c1, d1, hm]

theorem updateJobStatus_frame (q : QueueManager) (jobId status : String) (logs : List String)
    (now : Timestamp) :
    (q.updateJobStatus jobId status logs now).2.memoryMode = q.memoryMode ∧
    (q.updateJobStatus jobId status logs now).2.jobQueue = q.jobQueue ∧
    ((q.updateJobStatus jobId status logs now).2.jobData = q.jobData ∨
      ∃ r r', assocGet q.jobData jobId = some r ∧
        (q.updateJobStatus jobId status logs now).2.jobData = assocSet q.jobData jobId r') := by
  cases hh : q.isHealthy with
  | false => simp [QueueManager.updateJobStatus, hh]
  | true =>
    cases hm : q.memoryMode with
    | true =>
      cases hr : assocGet q.jobData jobId with
      | none => simp [updateJobStatus_memory_none q jobId status logs now hm hr, hm]
      | some r =>
        rw [updateJobStatus_memory_eq q jobId status logs now r hm hr]
        exact ⟨hm, rfl, Or.inr ⟨r, _, rfl, rfl⟩⟩
    | false =>
      unfold QueueManager.updateJobStatus
      simp only [hh, hm, Bool.not_true, Bool.false_eq_true, if_false]
      rcases h1 : q.send (fun db => ((), db.set (statusKey jobId) status)) with ⟨e | u, q1⟩
      · obtain ⟨a, _, c, d⟩ := send_fields q q1 _ _ h1
        simp [a, c, d, hm]
      · obtain ⟨a1, _, c1, d1⟩ := send_fields q q1 _ _ h1
        simp only
        rcases h2 : q1.send (fun db => ((), db.hSet (dataKey jobId)
            ([("status", status), ("logs", jsonStringify logs)] ++
              (if status = "running" then [("startedAt", now)]
               else if status = "completed" ∨ status = "failed" then [("completedAt", now)]
               else [])))) with ⟨e | u2, q2⟩
        · obtain ⟨a, _, c, d⟩ := send_fields q1 q2 _ _ h2
          simp [a, c, d, a1, c1, d1, hm]
        · obtain ⟨a, _, c, d⟩ := send_fields q1 q2 _ _ h2
          simp [a, c, d, a1, c1, d1, hm]

theorem send_readonly {α : Type} (q : QueueManager) (read : Redis → α) :
    ((q.send (fun db => (read db, db))).2.client.map (fun c => c.db)) =
      q.client.map (fun c => c.db) := by
  unfold QueueManager.send
  cases hc : q.client with
  | none => simp [hc]
  | some c =>
    simp only [Option.map_some']
    unfold Client.command
    cases hf : c.faults with
    | nil => simp
    | cons f rest => cases f <;> simp

theorem getJobStatus_frame (L : Lib) (q : QueueManager) (jobId : String) :
    (q.getJobStatus L jobId).2.memoryMode = q.memoryMode ∧
    (q.getJobStatus L jobId).2.isConnected = q.isConnected ∧
    (q.getJobStatus L jobId).2.jobQueue = q.jobQueue ∧
    (q.getJobStatus L jobId).2.jobData = q.jobData ∧
    (q.getJobStatus L jobId).2.client.map (fun c => c.db) = q.client.map (fun c => c.db) := by
  unfold QueueManager.getJobStatus
  cases hh : q.isHealthy with
  | false => simp
  | true =>
    cases hm : q.memoryMode with
    | true =>
      simp only [Bool.not_true, Bool.false_eq_true, if_false, if_true]
      cases assocGet q.jobData jobId <;> simp [hm]
    | false =>
      simp only [Bool.not_true, Bool.false_eq_true, if_false]
      have hro := send_readonly q (fun db => db.hGetAll (dataKey jobId))
      rcases h1 : q.send (fun db => (db.hGetAll (dataKey jobId), db)) with ⟨e | h, q1⟩
      · obtain ⟨a, b, c, d⟩ := send_fields q q1 _ _ h1
        rw [h1] at hro
        simp [a, b, c, d, hm]
        simpa using hro
      · obtain ⟨a, b, c, d⟩ := send_fields q q1 _ _ h1
        rw [h1] at hro
        simp [a, b, c, d, hm]
        simpa using hro

theorem close_frame (q : QueueManager) :
    q.close.memoryMode = q.memoryMode ∧
    ((q.close.jobQueue = q.jobQueue ∧ q.close.jobData = q.jobData) ∨
      (q.close.jobQueue = [] ∧ q.close.jobData = [])) := by
  unfold QueueManager.close
  cases hc : q.client with
  | none =>
    cases hm : q.memoryMode <;> simp [hm]
  | some c =>
    simp only
    rcases hcmd : c.command (fun db => ((), db)) with ⟨e | u, c1⟩
    · cases hm : q.memoryMode <;> simp [hm]
    · cases hm : q.memoryMode <;> simp [hm, QueueManager.onEnd]

theorem getMode_memory_iff (q : QueueManager) : q.getMode = "memory" ↔ q.memoryMode = true := by
  cases hm : q.memoryMode <;> simp [QueueManager.getMode, hm]

theorem step_memoryMode (L : Lib) (q : QueueManager) (a : StoreAction) :
    (q.step L a).memoryMode =
      match a with
      | .ready => false
      | .error => true
      | .connectFailed => true
      | .reconnect retries => if 5 < retries then true else q.memoryMode
      | _ => q.memoryMode := by
  cases a with
  | enqueueJob jobId command now => exact (enqueueJob_frame L q jobId command now).1
  | dequeueJob => exact (dequeueJob_frame L q).1
  | updateJobStatus jobId status logs now => exact (updateJobStatus_frame q jobId status logs now).1
  | getJobStatus jobId => exact (getJobStatus_frame L q jobId).1
  | close => exact (close_frame q).1
  | createClient db faults => rfl
  | clientReady ready => rfl
  | ready => rfl
  | error => cases hm : q.memoryMode <;> simp [QueueManager.step, QueueManager.onError, hm]
  | ended => rfl
  | reconnect retries =>
    by_cases h : 5 < retries <;> simp [QueueManager.step, QueueManager.reconnectStrategy, h]
  | connectFailed => rfl

/-- C12 as stated fails: a new store whose client reports an error switches to
memory mode at that `error` event (not at retry exhaustion), and the `ready`
event that follows a successful reconnect switches it back to `redis`. -/
theorem mode_not_one_way_counterexample :
    (QueueManager.new "redis://localhost:6379").getMode = "redis" ∧
    ((QueueManager.new "redis://localhost:6379").run sampleLib
        [.createClient { strings := [], hashes := [], lists := [] } [], .error]).getMode
      = "memory" ∧
    ((QueueManager.new "redis://localhost:6379").run sampleLib
        [.createClient { strings := [], hashes := [], lists := [] } [], .error,
         .clientReady true, .ready]).getMode
      = "redis" := by
  refine ⟨rfl, rfl, rfl⟩

/-- C12 (amended): the mode flag changes only at connection events: `ready`
sets it to `redis`; `error`, `connect` failure and retry exhaustion
(`reconnectStrategy` called with `retries > 5`) set it to `memory`; the `end`
event, the creation of the client and every queue operation leave it as it is.
So a store in memory mode stays in memory mode under every action other than
`ready`, and under every sequence of actions without a `ready` event. -/
theorem mode_changes_only_at_events (L : Lib) (q : QueueManager) (a : StoreAction)
    (actions : List StoreAction) :
    ((q.step L a).memoryMode ≠ q.memoryMode →
      (a = .ready ∧ q.memoryMode = true) ∨
      (q.memoryMode = false ∧
        (a = .error ∨ a = .connectFailed ∨ ∃ retries, 5 < retries ∧ a = .reconnect retries))) ∧
    (q.step L .ready).getMode = "redis" ∧
    (q.step L .error).getMode = "memory" ∧
    (q.step L .connectFailed).getMode = "memory" ∧
    (a ≠ .ready → q.getMode = "memory" → (q.step L a).getMode = "memory") ∧
    (.ready ∉ actions → q.getMode = "memory" → (q.run L actions).getMode = "memory") := by
  have hstep : ∀ (s : QueueManager) (b : StoreAction), b ≠ .ready →
      s.memoryMode = true → (s.step L b).memoryMode = true := by
    intro s b hb hs
    rw [step_memoryMode L s b]
    cases b <;> simp_all
  refine ⟨?_, rfl, ?_, rfl, ?_, ?_⟩
  · intro hne
    rw [step_memoryMode L q a] at hne
    cases a with
    | ready =>
      left
      refine ⟨rfl, ?_⟩
      cases hm : q.memoryMode
      · simp [hm] at hne
      · rfl
    | error =>
      right
      cases hm : q.memoryMode
      · exact ⟨rfl, Or.inl rfl⟩
      · simp [hm] at hne
    | connectFailed =>
      right
      cases hm : q.memoryMode
      · exact ⟨rfl, Or.inr (Or.inl rfl)⟩
      · simp [hm] at hne
    | reconnect retries =>
      right
      by_cases h : 5 < retries
      · cases hm : q.memoryMode
        · exact ⟨rfl, Or.inr (Or.inr ⟨retries, h, rfl⟩)⟩
        · simp [hm, h] at hne
      · simp [h] at hne
    | enqueueJob jobId command now => simp at hne
    | dequeueJob => simp at hne
    | updateJobStatus jobId status logs now => simp at hne
    | getJobStatus jobId => simp at hne
    | close => simp at hne
    | createClient db faults => simp at hne
    | clientReady ready => simp at hne
    | ended => simp at hne
  · rw [getMode_memory_iff, step_memoryMode]
  · intro ha hq
    rw [getMode_memory_iff] at hq ⊢
    exact hstep q a ha hq
  · intro hno hq
    rw [getMode_memory_iff] at hq ⊢
    unfold QueueManager.run
    induction actions generalizing q with
    | nil => exact hq
    | cons b rest ih =>
      rw [List.foldl_cons]
      exact ih (q.step L b) (fun hin => hno (List.mem_cons_of_mem _ hin))
        (hstep q b (fun hb => hno (hb ▸ List.mem_cons_self _ _)) hq)

/-- C12 (amended), at a memory-mode store that takes a job, an `end` event and
a `close()`. -/
theorem mode_changes_only_at_events_witness :
    (emptyMemoryStore.run sampleLib
        [.enqueueJob "j1" "ls" "t0", .ended, .dequeueJob, .close]).getMode = "memory" :=
  (mode_changes_only_at_events sampleLib emptyMemoryStore .dequeueJob
    [.enqueueJob "j1" "ls" "t0", .ended, .dequeueJob, .close]).2.2.2.2.2 (by decide) rfl

/-- C13 as stated fails on a store that is not healthy, such as a newly
constructed one: `getJobStatus` of an id without a record throws `Queue not
available`; in Redis mode it also throws when the server rejects the command. -/
theorem getJobStatus_throws_counterexample :
    assocGet (QueueManager.new "redis://localhost:6379").jobData "unknown" = none ∧
    (QueueManager.new "redis://localhost:6379").getJobStatus sampleLib "unknown" =
      (.error "Queue not available", QueueManager.new "redis://localhost:6379") ∧
    rejectingRedisStore.isHealthy = true ∧
    (rejectingRedisStore.getJobStatus sampleLib "unknown").1 =
      .error "LOADING Redis is loading the dataset in memory" := by
  refine ⟨rfl, rfl, rfl, rfl⟩

/-- C13 (amended): `getJobStatus` never changes the pending FIFO, the record
table or the data on the server.  For an id without a record it returns `null`
on a memory-mode store, and on a healthy Redis-mode store whose server carries
out the command (no record: no hash for the id, or a hash without a non-empty
`jobId`); it throws `Queue not available` on a store that is not healthy, and
the client's error when the server rejects the command. -/
theorem getJobStatus_unknown_id (L : Lib) (q : QueueManager) (jobId : String) :
    ((q.getJobStatus L jobId).2.jobQueue = q.jobQueue ∧
      (q.getJobStatus L jobId).2.jobData = q.jobData ∧
      (q.getJobStatus L jobId).2.client.map (fun c => c.db) = q.client.map (fun c => c.db)) ∧
    (q.isHealthy = false →
      q.getJobStatus L jobId = (.error "Queue not available", q)) ∧
    (q.memoryMode = true → assocGet q.jobData jobId = none →
      q.getJobStatus L jobId = (.ok none, q)) ∧
    (∀ c, q.memoryMode = false → q.isHealthy = true → q.client = some c →
      truthy (assocGet (c.db.hGetAll (dataKey jobId)) "jobId") = false →
      ((∀ message, c.faults.head? ≠ some (some message)) →
        (q.getJobStatus L jobId).1 = .ok none) ∧
      (∀ message, c.faults.head? = some (some message) →
        (q.getJobStatus L jobId).1 = .error message)) := by
  obtain ⟨_, _, hq, hd, hdb⟩ := getJobStatus_frame L q jobId
  refine ⟨⟨hq, hd, hdb⟩, ?_, ?_, ?_⟩
  · intro hh
    simp [QueueManager.getJobStatus, hh, notAvailable]
  · intro hm hr
    simp [QueueManager.getJobStatus, isHealthy_of_memoryMode q hm, hm, hr]
  · intro c hm hh hc hno
    refine ⟨?_, ?_⟩
    · intro hf
      cases hfl : c.faults with
      | nil =>
        simp [QueueManager.getJobStatus, hh, hm, QueueManager.send, hc, Client.command, hfl,
          readHashJob, hno]
      | cons f rest =>
        cases f with
        | none =>
          simp [QueueManager.getJobStatus, hh, hm, QueueManager.send, hc, Client.command, hfl,
            readHashJob, hno]
        | some message => exact absurd (by simp [hfl]) (hf message)
    · intro message hf
      cases hfl : c.faults with
      | nil => simp [hfl] at hf
      | cons f rest =>
        simp [hfl] at hf
        subst hf
        simp [QueueManager.getJobStatus, hh, hm, QueueManager.send, hc, Client.command, hfl]

/-- C13 (amended), at a memory-mode store that holds another job, and at a
healthy Redis-mode store whose server holds nothing. -/
theorem getJobStatus_unknown_id_witness :
    usedMemoryStore.getJobStatus sampleLib "unknown" = (.ok none, usedMemoryStore) ∧
    (emptyRedisStore.getJobStatus sampleLib "unknown").1 = .ok none :=
  ⟨(getJobStatus_unknown_id sampleLib usedMemoryStore "unknown").2.2.1 rfl rfl,
   ((getJobStatus_unknown_id sampleLib emptyRedisStore "unknown").2.2.2
      { isReady := true, db := { strings := [], hashes := [], lists := [] }, faults := [] }
      rfl rfl rfl rfl).1 (by intro message; simp)⟩

theorem step_pendingHaveRecords (L : Lib) (q : QueueManager) (a : StoreAction)
    (h : PendingHaveRecords q) : PendingHaveRecords (q.step L a) := by
  have hsame : ∀ s : QueueManager, s.jobQueue = q.jobQueue → s.jobData = q.jobData →
      PendingHaveRecords s := by
    intro s hq hd id hid
    rw [hq] at hid
    rw [hd]
    exact h id hid
  cases a with
  | enqueueJob jobId command now =>
    rcases (enqueueJob_frame L q jobId command now).2 with ⟨hq, hd⟩ | ⟨hq, hd⟩
    · exact hsame _ hq hd
    · intro id hid
      show ∃ r, assocGet (q.enqueueJob L jobId command now).2.jobData id = some r
      have hid' : id ∈ (q.enqueueJob L jobId command now).2.jobQueue := hid
      rw [hq] at hid'
      rw [hd]
      by_cases hEq : id = jobId
      · subst hEq
        exact ⟨_, assocGet_assocSet_same _ _ _⟩
      · rw [assocGet_assocSet_other _ _ _ _ hEq]
        rcases List.mem_append.mp hid' with hm | hm
        · exact h id hm
        · simp at hm
          exact absurd hm hEq
  | dequeueJob =>
    obtain ⟨_, hd, hq | ⟨id0, hq⟩⟩ := dequeueJob_frame L q
    · exact hsame _ hq hd
    · intro id hid
      show ∃ r, assocGet (q.dequeueJob L).2.jobData id = some r
      have hid' : id ∈ (q.dequeueJob L).2.jobQueue := hid
      rw [hd]
      exact h id (by rw [hq]; exact List.mem_cons_of_mem _ hid')
  | updateJobStatus jobId status logs now =>
    obtain ⟨_, hq, hd | ⟨r, r', hr, hd⟩⟩ := updateJobStatus_frame q jobId status logs now
    · exact hsame _ hq hd
    · intro id hid
      show ∃ r, assocGet (q.updateJobStatus jobId status logs now).2.jobData id = some r
      have hid' : id ∈ (q.updateJobStatus jobId status logs now).2.jobQueue := hid
      rw [hq] at hid'
      rw [hd]
      by_cases hEq : id = jobId
      · subst hEq
        exact ⟨_, assocGet_assocSet_same _ _ _⟩
      · rw [assocGet_assocSet_other _ _ _ _ hEq]
        exact h id hid'
  | getJobStatus jobId =>
    obtain ⟨_, _, hq, hd, _⟩ := getJobStatus_frame L q jobId
    exact hsame _ hq hd
  | close =>
    rcases (close_frame q).2 with ⟨hq, hd⟩ | ⟨hq, _⟩
    · exact hsame _ hq hd
    · intro id hid
      have hid' : id ∈ q.close.jobQueue := hid
      rw [hq] at hid'
      cases hid'
  | createClient db faults => exact hsame _ rfl rfl
  | clientReady ready => exact hsame _ rfl rfl
  | ready => exact hsame _ rfl rfl
  | error => exact hsame _ rfl rfl
  | ended => exact hsame _ rfl rfl
  | reconnect retries =>
    by_cases hr : 5 < retries
    · exact hsame _ (by simp [QueueManager.step, QueueManager.reconnectStrategy, hr])
        (by simp [QueueManager.step, QueueManager.reconnectStrategy, hr])
    · exact hsame _ (by simp [QueueManager.step, QueueManager.reconnectStrategy, hr])
        (by simp [QueueManager.step, QueueManager.reconnectStrategy, hr])
  | connectFailed => exact hsame _ rfl rfl

theorem run_pendingHaveRecords (L : Lib) (actions : List StoreAction) :
    ∀ q : QueueManager, PendingHaveRecords q → PendingHaveRecords (q.run L actions) := by
  induction actions with
  | nil => intro q h; exact h
  | cons a rest ih =>
    intro q h
    unfold QueueManager.run
    rw [List.foldl_cons]
    exact ih (q.step L a) (step_pendingHaveRecords L q a h)

/-- C14: in every state reached from a newly constructed store by any sequence
of `enqueueJob`, `dequeueJob`, `updateJobStatus`, `getJobStatus`, `close` and
connection events (which flip the mode), every id in the in-memory pending FIFO
has a record in the in-memory table.  Hence in memory mode `dequeueJob` does
not throw, a popped non-empty id always comes with its record (the `job data not
found` branch is not taken), and the result is `null` exactly when the FIFO is
empty or the popped id is the empty string. -/
theorem pending_ids_have_records (L : Lib) (url : String) (actions : List StoreAction) :
    PendingHaveRecords ((QueueManager.new url).run L actions) ∧
    (((QueueManager.new url).run L actions).memoryMode = true →
      (∀ id rest, ((QueueManager.new url).run L actions).jobQueue = id :: rest → id ≠ "" →
        ∃ r, assocGet ((QueueManager.new url).run L actions).jobData id = some r ∧
          ((QueueManager.new url).run L actions).dequeueJob L =
            (.ok (some (.mem r)),
             { (QueueManager.new url).run L actions with jobQueue := rest })) ∧
      ((((QueueManager.new url).run L actions).dequeueJob L).1 = .ok none ↔
        (((QueueManager.new url).run L actions).jobQueue = [] ∨
          ∃ rest, ((QueueManager.new url).run L actions).jobQueue = "" :: rest)) ∧
      (∀ e, (((QueueManager.new url).run L actions).dequeueJob L).1 ≠ .error e)) := by
  have hinv : PendingHaveRecords ((QueueManager.new url).run L actions) :=
    run_pendingHaveRecords L actions (QueueManager.new url) (by
      intro id hid
      cases hid)
  refine ⟨hinv, ?_⟩
  generalize (QueueManager.new url).run L actions = q at hinv
  intro hmem
  rcases dequeueJob_memory_cases L q hmem with
    ⟨hq, hd⟩ | ⟨id, rest, hq, ⟨hbad, hd⟩ | ⟨hid, r, hr, hd⟩⟩
  · rw [hd]
    refine ⟨?_, by simp [hq], by simp⟩
    intro id rest hq'
    rw [hq] at hq'
    cases hq'
  · have hempty : id = "" := by
      rcases hbad with hid | hnone
      · exact hid
      · obtain ⟨r, hr⟩ := hinv id (by rw [hq]; exact List.mem_cons_self _ _)
        rw [hr] at hnone
        cases hnone
    subst hempty
    rw [hd]
    refine ⟨?_, by simp [hq], by simp⟩
    intro id rest' hq' hid
    rw [hq] at hq'
    cases hq'
    exact absurd rfl hid
  · rw [hd]
    refine ⟨?_, ?_, by simp⟩
    · intro id' rest' hq' _
      rw [hq] at hq'
      cases hq'
      exact ⟨r, hr, rfl⟩
    · simp only [Except.ok.injEq, reduceCtorEq, false_iff, not_or, not_exists]
      refine ⟨by simp [hq], ?_⟩
      intro rest' hq'
      rw [hq] at hq'
      cases hq'
      exact hid rfl

/-- C14, at a new store whose `connect()` failed and that then took two jobs. -/
theorem pending_ids_have_records_witness :
    ((QueueManager.new "redis://localhost:6379").run sampleLib
        [.connectFailed, .enqueueJob "a" "ls" "t0", .enqueueJob "b" "pwd" "t1"]).jobQueue
      = ["a", "b"] ∧
    ∃ r, assocGet ((QueueManager.new "redis://localhost:6379").run sampleLib
          [.connectFailed, .enqueueJob "a" "ls" "t0", .enqueueJob "b" "pwd" "t1"]).jobData "a"
        = some r ∧
      ((QueueManager.new "redis://localhost:6379").run sampleLib
          [.connectFailed, .enqueueJob "a" "ls" "t0", .enqueueJob "b" "pwd" "t1"]).dequeueJob
          sampleLib =
        (.ok (some (.mem r)),
         { (QueueManager.new "redis://localhost:6379").run sampleLib
             [.connectFailed, .enqueueJob "a" "ls" "t0", .enqueueJob "b" "pwd" "t1"] with
           jobQueue := ["b"] }) :=
  ⟨rfl,
   ((pending_ids_have_records sampleLib "redis://localhost:6379"
      [.connectFailed, .enqueueJob "a" "ls" "t0", .enqueueJob "b" "pwd" "t1"]).2 rfl).1
     "a" ["b"] rfl (by decide)⟩

end AgentService
